import Mathlib

/-!
Verification of the Seth transaction processor core (sawtooth-seth).

This file shallowly embeds the data model and the operations of the Seth
transaction processor: the account state store (`SawtoothAppState` from
`processor/src/seth_tp/handler/sawtooth_app_state.go`), the four transaction
handlers (`transaction_handlers.go`), the log-event sink
(`SawtoothEventFireable`), contract-address derivation (RLP + KECCAK-256),
and the permission model.  Machine integers are modelled as `Nat` (all the
relevant Go values are unsigned and no overflow-relevant arithmetic occurs:
sequences and gas only ever grow by small increments), byte strings as
`List Nat`, and the validator context as an association list from EVM
addresses to encoded account entries.  The embedded EVM library is out of
scope of the repository (it is the external burrow library); handlers that
invoke it take the virtual machine as an explicit function parameter.
-/

set_option maxRecDepth 4000

namespace Seth

/-- A 20-byte EVM address, as the list of its bytes. -/
abbrev Addr := List Nat

/-- The burrow permission bitmask pair (`permission.BasePermissions`):
`perms` holds the flag values, `setBit` records which flags are governed. -/
structure BasePermissions where
  perms : Nat
  setBit : Nat
deriving DecidableEq, Repr

/-- The encoded permission pair stored in state (`EvmPermissions` protobuf
message): the same two `uint64` masks. -/
structure EvmPermissions where
  perms : Nat
  setBit : Nat
deriving DecidableEq, Repr

/-- Permission flag constants, modelled from burrow's permission package
(external to this repository): each named flag is a distinct single bit. -/
def RootFlag : Nat := 1

/-- The Send permission bit. -/
def SendFlag : Nat := 2

/-- The Call permission bit (message calls). -/
def CallFlag : Nat := 4

/-- The CreateContract permission bit. -/
def CreateContractFlag : Nat := 8

/-- The CreateAccount permission bit. -/
def CreateAccountFlag : Nat := 16

/-- All permission bits, used by the dispatcher's global-permissions
bootstrap (`set_bit = ALL`, `perms = ALL`). -/
def AllFlags : Nat := 31

/-- The 64-bit mask: Go permission masks are `uint64`. -/
def U64Mask : Nat := 2 ^ 64 - 1

/-- Burrow's `BasePermissions.Set(flag, false)`: mark the flag as governed
(`SetBit |= flag`) and clear its value (`Perms &= ^flag`, a `uint64`
complement). -/
def setFlagFalse (p : BasePermissions) (flag : Nat) : BasePermissions :=
  { perms := p.perms &&& (U64Mask ^^^ flag), setBit := p.setBit ||| flag }

/-- An account as the burrow EVM sees it (`acm.Account`): address, balance,
code, sequence number (nonce) and permissions. -/
structure Account where
  address : Addr
  balance : Nat
  code : List Nat
  sequence : Nat
  permissions : BasePermissions
deriving DecidableEq, Repr

/-- The encoded account record stored in state (`EvmStateAccount` protobuf
message). -/
structure EvmStateAccount where
  address : List Nat
  balance : Nat
  code : List Nat
  nonce : Nat
  permissions : EvmPermissions
deriving DecidableEq, Repr

/-- One storage pair of an account entry (`EvmStorage` protobuf message).
Keys and values are at most 32 bytes on the wire; comparisons left-pad. -/
structure EvmStorage where
  key : List Nat
  value : List Nat
deriving DecidableEq, Repr

/-- The sole encoded value stored at an account's namespace address
(`EvmEntry`): the account record plus the ordered storage list. -/
structure EvmEntry where
  account : EvmStateAccount
  storage : List EvmStorage
deriving DecidableEq, Repr

/-- Conversion `toStatePermissions` from `sawtooth_app_state.go`: the two
`uint64` masks are copied across. -/
def toStatePermissions (p : BasePermissions) : EvmPermissions :=
  { perms := p.perms, setBit := p.setBit }

/-- Conversion `toVmPermissions` from `sawtooth_app_state.go`. -/
def toVmPermissions (p : EvmPermissions) : BasePermissions :=
  { perms := p.perms, setBit := p.setBit }

/-- Conversion `toStateAccount` from `sawtooth_app_state.go`: field-for-field
repackaging of an EVM account into its stored form (`Sequence` is stored as
`Nonce`). -/
def toStateAccount (acct : Account) : EvmStateAccount :=
  { address := acct.address
    balance := acct.balance
    code := acct.code
    nonce := acct.sequence
    permissions := toStatePermissions acct.permissions }

/-- Conversion `toVmAccount` from `sawtooth_app_state.go`
(`crypto.MustAddressFromBytes` is the identity on the stored 20-byte
address bytes). -/
def toVmAccount (sa : EvmStateAccount) : Account :=
  { address := sa.address
    balance := sa.balance
    code := sa.code
    sequence := sa.nonce
    permissions := toVmPermissions sa.permissions }

/-- The contents of the validator context, keyed by EVM address: one encoded
`EvmEntry` per address (spec section 3, "Persisted state layout"). -/
abbrev State := List (Addr × EvmEntry)

/-- Look up the entry stored at an address. -/
def lookupEntry : State → Addr → Option EvmEntry
  | [], _ => none
  | (b, e) :: rest, a => if b = a then some e else lookupEntry rest a

/-- Store an entry at an address, replacing any previous entry there
(last write wins). -/
def setEntry : State → Addr → EvmEntry → State
  | [], a, e => [(a, e)]
  | (b, e0) :: rest, a, e =>
      if b = a then (b, e) :: rest else (b, e0) :: setEntry rest a e

/-- Remove the entry stored at an address. -/
def delEntry : State → Addr → State
  | [], _ => []
  | (b, e0) :: rest, a => if b = a then rest else (b, e0) :: delEntry rest a

/-- Modelled from the spec: the fresh entry produced by the state manager's
`new(addr)` (`StateManager.NewEntry`, in the repository's common package,
not under src/): an account record at the given address with zero balance,
empty code, nonce 0, empty permissions, and empty storage. -/
def freshEntry (a : Addr) : EvmEntry :=
  { account :=
      { address := a, balance := 0, code := [], nonce := 0
        permissions := { perms := 0, setBit := 0 } }
    storage := [] }

/-- Modelled from the spec: the state manager's `new(addr)` operation
(section 4.3): fails with AlreadyExists when an entry is present, otherwise
creates the fresh entry, persists it, and returns it. -/
def newEntry (st : State) (a : Addr) : Except String (EvmEntry × State) :=
  match lookupEntry st a with
  | some _ => .error "Entry already exists"
  | none => .ok (freshEntry a, setEntry st a (freshEntry a))

/-- Left-pad a byte string with zeros to 32 bytes (`binary.LeftPadWord256`). -/
def leftPad32 (b : List Nat) : List Nat :=
  List.replicate (32 - b.length) 0 ++ b

/-- The 32-byte zero word (`binary.Zero256`). -/
def Zero256 : List Nat := List.replicate 32 0

/-- `SawtoothAppState.GetAccount`: load the entry at the address and convert
its account record; `none` when no entry exists.  (The address conversions
`AddressFromWord256` / `NewEvmAddrFromBytes` on a well-typed 20-byte address
cannot fail and are the identity here.) -/
def getAccount (st : State) (addr : Addr) : Option Account :=
  (lookupEntry st addr).map (fun e => toVmAccount e.account)

/-- `NewEvmAddrFromBytes`, modelled from the spec (the EvmAddr codec lives
in the repository's common package, not under src/): a 20-byte EVM address
is accepted verbatim, anything else is a decode error. -/
def newEvmAddrFromBytes (b : List Nat) : Option Addr :=
  if b.length = 20 then some b else none

/-- `SawtoothAppState.UpdateAccount`: load the entry at the account's own
address, create a fresh one if none exists, replace its account record with
the converted supplied account (preserving the storage list), and persist.
The only failure is the address decode error on the account's address
bytes. -/
def updateAccount (st : State) (acct : Account) : Except String State :=
  match newEvmAddrFromBytes acct.address with
  | none => .error "bad address"
  | some vmAddress =>
    let entry :=
      match lookupEntry st vmAddress with
      | some e => { e with account := toStateAccount acct }
      | none => { freshEntry vmAddress with account := toStateAccount acct }
    .ok (setEntry st vmAddress entry)

/-- `UpdateAccount` as invoked with its error discarded (the two trailing
calls in `MessageCall` and `SetPermissions` ignore the returned error): on
error the context is left untouched. -/
def updateAccountD (st : State) (acct : Account) : State :=
  match updateAccount st acct with
  | .ok st1 => st1
  | .error _ => st

/-- The storage-lookup loop of `SawtoothAppState.GetStorage`: left-pad each
stored key to 32 bytes, return the left-padded value of the first match,
and the zero word on a miss. -/
def getStorageList : List EvmStorage → List Nat → List Nat
  | [], _ => Zero256
  | p :: rest, key =>
      if leftPad32 p.key = key then leftPad32 p.value
      else getStorageList rest key

/-- `SawtoothAppState.GetStorage`: `MustGetEntry` aborts when no entry exists
(modelled as `none`); otherwise run the lookup loop over the entry's
storage list. -/
def getStorage (st : State) (address : Addr) (key : List Nat) :
    Option (List Nat) :=
  match lookupEntry st address with
  | none => none
  | some entry => some (getStorageList entry.storage key)

/-- The update loop of `SawtoothAppState.SetStorage`: overwrite the value of
the first pair whose left-padded key matches, keeping its stored key bytes;
if no pair matches, append the new pair at the end. -/
def setStorageList : List EvmStorage → List Nat → List Nat → List EvmStorage
  | [], key, value => [{ key := key, value := value }]
  | p :: rest, key, value =>
      if leftPad32 p.key = key then { key := p.key, value := value } :: rest
      else p :: setStorageList rest key value

/-- `SawtoothAppState.SetStorage`: `MustGetEntry` aborts when no entry exists
(modelled as `none`); otherwise run the update loop and persist the entry. -/
def setStorage (st : State) (address : Addr) (key value : List Nat) :
    Option State :=
  match lookupEntry st address with
  | none => none
  | some entry =>
      some (setEntry st address
        { entry with storage := setStorageList entry.storage key value })

/-- The left-padded keys of a storage list, in order (keys are compared
after left-padding to 32 bytes). -/
def paddedKeys (s : List EvmStorage) : List (List Nat) :=
  s.map (fun p => leftPad32 p.key)

/-- Well-formedness of a context: every entry stores its own 20-byte key as
its account address.  Every state reachable through the state manager
satisfies this (`NewEntry` stores the key, `UpdateAccount` writes at the
account's own address). -/
def wfState (st : State) : Bool :=
  st.all (fun p => p.2.account.address = p.1 && p.1.length = 20)

/-- Rotate a 64-bit lane left by n bits. -/
def rotl64 (x n : Nat) : Nat :=
  ((x <<< n) ||| (x >>> (64 - n))) % 2 ^ 64

/-- Keccak-f[1600] round constants (decimal). -/
def keccakRC : List Nat :=
  [1, 32898, 9223372036854808714,
   9223372039002292224, 32907, 2147483649,
   9223372039002292353, 9223372036854808585, 138,
   136, 2147516425, 2147483658,
   2147516555, 9223372036854775947, 9223372036854808713,
   9223372036854808579, 9223372036854808578, 9223372036854775936,
   32778, 9223372039002259466, 9223372039002292353,
   9223372036854808704, 2147483649, 9223372039002292232]

/-- Rho rotation offsets, indexed by lane position x + 5*y. -/
def rhoOffsets : List Nat :=
  [0, 1, 62, 28, 27] ++
    [36, 44, 6, 55, 20] ++
    [3, 10, 43, 25, 39] ++
    [41, 45, 15, 21, 8] ++
    [18, 2, 61, 56, 14]

/-- Read lane (x, y) of the flat 25-lane state. -/
def lane (s : List Nat) (x y : Nat) : Nat := s.getD (x + 5 * y) 0

/-- Theta step. -/
def theta (s : List Nat) : List Nat :=
  let c := (List.range 5).map (fun x =>
    lane s x 0 ^^^ lane s x 1 ^^^ lane s x 2 ^^^ lane s x 3 ^^^ lane s x 4)
  let d := (List.range 5).map (fun x =>
    c.getD ((x + 4) % 5) 0 ^^^ rotl64 (c.getD ((x + 1) % 5) 0) 1)
  (List.range 25).map (fun i => s.getD i 0 ^^^ d.getD (i % 5) 0)

/-- Rho and pi steps: lane (x, y) moves, rotated, to position (y, 2x+3y). -/
def rhoPi (s : List Nat) : List Nat :=
  (List.range 25).foldl
    (fun b i =>
      let x := i % 5
      let y := i / 5
      b.set (y + 5 * ((2 * x + 3 * y) % 5)) (rotl64 (s.getD i 0) (rhoOffsets.getD i 0)))
    (List.replicate 25 0)

/-- Chi step. -/
def chi (s : List Nat) : List Nat :=
  (List.range 25).map (fun i =>
    let x := i % 5
    let y := i / 5
    s.getD i 0 ^^^
      ((U64Mask ^^^ lane s ((x + 1) % 5) y) &&& lane s ((x + 2) % 5) y))

/-- One Keccak-f round with the given round constant. -/
def keccakRound (s : List Nat) (rc : Nat) : List Nat :=
  let s1 := chi (rhoPi (theta s))
  s1.set 0 (s1.getD 0 0 ^^^ rc)

/-- The full Keccak-f[1600] permutation: 24 rounds. -/
def keccakF (s : List Nat) : List Nat :=
  keccakRC.foldl keccakRound s

/-- Decode 8 bytes (little-endian) into a 64-bit lane. -/
def bytesToLane (b : List Nat) : Nat :=
  b.foldr (fun byte acc => acc * 256 + byte) 0

/-- Encode a 64-bit lane as 8 little-endian bytes. -/
def laneToBytes (x : Nat) : List Nat :=
  (List.range 8).map (fun i => x / 256 ^ i % 256)

/-- Absorb one 136-byte block into the state and permute. -/
def absorbBlock (s : List Nat) (block : List Nat) : List Nat :=
  keccakF ((List.range 25).map (fun i =>
    if i < 17 then s.getD i 0 ^^^ bytesToLane ((block.drop (8 * i)).take 8)
    else s.getD i 0))

/-- Keccak multi-rate padding for rate 136 with domain byte 0x01 (the
original Keccak padding used by Ethereum, not the NIST SHA-3 variant). -/
def keccakPad (msg : List Nat) : List Nat :=
  let padLen := 136 - msg.length % 136
  if padLen = 1 then msg ++ [0x81]
  else msg ++ [0x01] ++ List.replicate (padLen - 2) 0 ++ [0x80]

/-- Split a padded message into 136-byte blocks; the first argument is the
number of blocks. -/
def splitBlocks : Nat → List Nat → List (List Nat)
  | 0, _ => []
  | k + 1, l => l.take 136 :: splitBlocks k (l.drop 136)

/-- KECCAK-256 of a byte string: absorb all padded blocks, squeeze the
first 32 output bytes. -/
def keccak256 (msg : List Nat) : List Nat :=
  let padded := keccakPad msg
  let finalState :=
    (splitBlocks (padded.length / 136) padded).foldl absorbBlock
      (List.replicate 25 0)
  ((finalState.take 4).map laneToBytes).flatten

/-- Minimal big-endian byte representation of a Nat (empty for 0). -/
def natToBEBytes (n : Nat) : List Nat :=
  (List.range 8).foldl (fun acc i =>
    let b := n / 256 ^ (7 - i) % 256
    if acc = [] && b = 0 then [] else acc ++ [b]) []

/-- RLP encoding of a byte string. -/
def rlpEncodeBytes (b : List Nat) : List Nat :=
  if b.length = 1 && b.headD 0 < 0x80 then b
  else if b.length ≤ 55 then (0x80 + b.length) :: b
  else
    let lenBytes := natToBEBytes b.length
    (0xb7 + lenBytes.length) :: lenBytes ++ b

/-- RLP encoding of a list given its already-encoded items. -/
def rlpEncodeList (payload : List Nat) : List Nat :=
  if payload.length ≤ 55 then (0xc0 + payload.length) :: payload
  else
    let lenBytes := natToBEBytes payload.length
    (0xf7 + lenBytes.length) :: lenBytes ++ payload

/-- Sanity check of the KECCAK-256 implementation against the published
test vector for the empty message. -/
theorem keccak256_empty_vector :
    keccak256 [] =
      [0xc5, 0xd2, 0x46, 0x01, 0x86, 0xf7, 0x23, 0x3c, 0x92, 0x7e,
       0x7d, 0xb2, 0xdc, 0xc7, 0x03, 0xc0, 0xe5, 0x00, 0xb6, 0x53,
       0xca, 0x82, 0x27, 0x3b, 0x7b, 0xfa, 0xd8, 0x04, 0x5d, 0x85,
       0xa4, 0x70] := by decide

/-- Sanity check of the KECCAK-256 implementation against the published
test vector for the three-byte message abc. -/
theorem keccak256_abc_vector :
    keccak256 [0x61, 0x62, 0x63] =
      [0x4e, 0x03, 0x65, 0x7a, 0xea, 0x45, 0xa9, 0x4f, 0xc7, 0xd4,
       0x7b, 0xa8, 0x26, 0xc8, 0xd6, 0x67, 0xc0, 0xd1, 0xe6, 0xe3,
       0x3a, 0x64, 0xa0, 0x36, 0xec, 0x44, 0xf5, 0x8f, 0xa1, 0x2d,
       0x6c, 0x45] := by decide

/-- Modelled from the spec: `EvmAddr.Derive` (address codec, in the
repository's common package, not under src/), section 4.1: RLP-encode
`[creator, nonce]`, KECCAK-256 it, and take the last 20 bytes. -/
def derive (creator : Addr) (nonce : Nat) : Addr :=
  (keccak256 (rlpEncodeList
    (rlpEncodeBytes creator ++ rlpEncodeBytes (natToBEBytes nonce)))).drop 12

/-- Burrow's `acm.GlobalPermissionsAddress`: the all-zero 20-byte address. -/
def globalPermissionsAddress : Addr := List.replicate 20 0

/-- Modelled from the spec: burrow's `evm.HasPermission` (external library),
following section 4.5 and the section 3 definition: if the account at the
address governs the flag locally (`set_bit & flag != 0`) the local value
decides (`perms & flag != 0`); otherwise the query escalates to the global
permissions account; if neither governs the flag, deny. -/
def globalGrant (st : State) (flag : Nat) : Bool :=
  match getAccount st globalPermissionsAddress with
  | some g =>
      decide (g.permissions.setBit &&& flag ≠ 0) &&
        decide (g.permissions.perms &&& flag ≠ 0)
  | none => false

/-- Permission check at an address (see `globalGrant` for the escalation). -/
def hasPermission (st : State) (addr : Addr) (flag : Nat) : Bool :=
  match getAccount st addr with
  | some acct =>
      if acct.permissions.setBit &&& flag ≠ 0 then
        decide (acct.permissions.perms &&& flag ≠ 0)
      else globalGrant st flag
  | none => globalGrant st flag

/-- Lower-case hex encoding of a byte string (Go's `hex.EncodeToString`). -/
def hexEncode (b : List Nat) : String :=
  String.mk (b.flatMap (fun byte =>
    let digit := fun n => Char.ofNat (if n < 10 then 48 + n else 87 + n)
    [digit (byte / 16), digit (byte % 16)]))

/-- Modelled from burrow's `crypto.Address.String` (external library):
upper-case hex encoding of the 20 address bytes. -/
def addressString (b : List Nat) : String :=
  String.mk (b.flatMap (fun byte =>
    let digit := fun n => Char.ofNat (if n < 10 then 48 + n else 55 + n)
    [digit (byte / 16), digit (byte % 16)]))

/-- One attribute of a validator event (`processor.Attribute`). -/
structure Attribute where
  key : String
  value : String
deriving DecidableEq, Repr

/-- A validator event: event type, attribute list and opaque body, as
handed to `context.AddEvent`. -/
structure Event where
  eventType : String
  attributes : List Attribute
  body : List Nat
deriving DecidableEq, Repr

/-- `SawtoothEventFireable.Log`: build the two fixed attributes, append one
`topicN` attribute per topic (N starting at 1), and fire a single
`seth_log_event` with the log's data as the body. -/
def logCallback (address : Addr) (topics : List (List Nat))
    (data : List Nat) : List Event :=
  let attributes :=
    topics.enum.foldl
      (fun acc p =>
        acc ++ [{ key := "topic" ++ toString (p.1 + 1)
                  value := hexEncode p.2 }])
      [{ key := "address", value := hexEncode address },
       { key := "eventID", value := addressString address }]
  [{ eventType := "seth_log_event", attributes := attributes, body := data }]

/-- The `CreateExternalAccountTxn` transaction body. -/
structure CreateExternalAccountTxn where
  toAddr : Option (List Nat)
  nonce : Nat
  permissions : Option EvmPermissions
deriving DecidableEq, Repr

/-- The `CreateContractAccountTxn` transaction body. -/
structure CreateContractAccountTxn where
  init : List Nat
  gasLimit : Nat
  nonce : Nat
  permissions : Option EvmPermissions
deriving DecidableEq, Repr

/-- The `MessageCallTxn` transaction body. -/
structure MessageCallTxn where
  toAddr : List Nat
  data : List Nat
  gasLimit : Nat
  nonce : Nat
deriving DecidableEq, Repr

/-- The `SetPermissionsTxn` transaction body. -/
structure SetPermissionsTxn where
  toAddr : List Nat
  permissions : Option EvmPermissions
  nonce : Nat
deriving DecidableEq, Repr

/-- Decidable equality for results carried in an `Except`. -/
instance exceptDecEq {e a : Type} [DecidableEq e] [DecidableEq a] :
    DecidableEq (Except e a) := fun x y =>
  match x, y with
  | .ok v, .ok w =>
    if h : v = w then .isTrue (by rw [h]) else .isFalse (fun hc => h (Except.ok.inj hc))
  | .ok _, .error _ => .isFalse (fun hc => Except.noConfusion hc)
  | .error _, .ok _ => .isFalse (fun hc => Except.noConfusion hc)
  | .error u, .error w =>
    if h : u = w then .isTrue (by rw [h]) else .isFalse (fun hc => h (Except.error.inj hc))

/-- A handler failure: `invalidTransaction` is
`processor.InvalidTransactionError`; `fatal` models a Go panic (nil
dereference, `MustAddressFromBytes`, or `CreateAccount` hitting an
occupied address). -/
inductive TxnError where
  | invalidTransaction (msg : String)
  | fatal (msg : String)
deriving DecidableEq, Repr

/-- The successful part of a `HandlerResult`. -/
structure HandlerResult where
  gasUsed : Nat := 0
  returnValue : List Nat := []
  newAccount : Option Account := none
deriving DecidableEq, Repr

/-- A handler run: the returned result (or error) together with the
contents of the validator context when the handler returns.  On an error
the context holds exactly the writes issued before the failure. -/
structure Outcome where
  result : Except TxnError HandlerResult
  state : State
deriving DecidableEq, Repr

/-- The embedded EVM (`callVm` drives burrow's `evm.Call`), out of scope of
this repository and taken as a parameter: from the current context, the
caller account, the optional callee account, the code, the input and the
gas limit it produces either an (output, gas-used) pair or an EVM error,
together with the context contents after its own reads and writes. -/
def VmCall : Type :=
  State → Account → Option Account → List Nat → List Nat → Nat →
    Except String (List Nat × Nat) × State

/-- The tail of the on-behalf branch of the `CreateExternalAccount`
handler, from the point where the new account's permissions have been
resolved (source lines 122-143): build the new account record with
sequence 1, increment the sender sequence, and persist both. -/
def ceaTail (st : State) (senderAcct : Account) (newAcctAddr : Addr)
    (newPerms : BasePermissions) : Outcome :=
  let newAcct : Account :=
    { address := newAcctAddr, balance := 0, code := []
      sequence := 1, permissions := newPerms }
  let senderAcct1 := { senderAcct with sequence := senderAcct.sequence + 1 }
  match updateAccount st senderAcct1 with
  | .error e => { result := .error (.invalidTransaction e), state := st }
  | .ok st1 =>
    match updateAccount st1 newAcct with
    | .error e => { result := .error (.invalidTransaction e), state := st1 }
    | .ok st2 => { result := .ok { newAccount := some newAcct }, state := st2 }

/-- The `CreateExternalAccount` handler (`transaction_handlers.go`).  The
branch on whether `to` is set mirrors the source: the on-behalf branch
checks sender existence, the CreateAccount permission, the nonce, the `to`
address decoding, absence of an account at `to`, then resolves the new
permissions (inherit-minus-Root, or the explicit pair when the sender holds
Root), creates the new account record with sequence 1, increments the
sender sequence and persists both; the self-bootstrap branch requires the
sender to be absent and the global account to grant CreateAccount, and
creates the sender account with sequence 1 and the global account's
permission pair. -/
def createExternalAccount (txn : CreateExternalAccountTxn) (sender : Addr)
    (st : State) : Outcome :=
  match txn.toAddr with
  | some toBytes =>
    match getAccount st sender with
    | none =>
        { result := .error (.invalidTransaction
            "Creating account must already exist to create other accounts")
          state := st }
    | some senderAcct =>
      if ! hasPermission st senderAcct.address CreateAccountFlag then
        { result := .error (.invalidTransaction
            "Sender account does not have permission to create external accounts")
          state := st }
      else if txn.nonce ≠ senderAcct.sequence then
        { result := .error (.invalidTransaction "Nonces do not match")
          state := st }
      else
        match newEvmAddrFromBytes toBytes with
        | none =>
            { result := .error (.invalidTransaction
                "Failed to construct address for new EOA")
              state := st }
        | some newAcctAddr =>
          match getAccount st newAcctAddr with
          | some _ =>
              { result := .error (.invalidTransaction
                  "Account already exists at address")
                state := st }
          | none =>
            let newPermsResult : Except TxnError BasePermissions :=
              match txn.permissions with
              | none => .ok (setFlagFalse senderAcct.permissions RootFlag)
              | some p =>
                if ! hasPermission st senderAcct.address RootFlag then
                  .error (.invalidTransaction
                    "Creating account does not have permission to set permissions")
                else .ok (toVmPermissions p)
            match newPermsResult with
            | .error e => { result := .error e, state := st }
            | .ok newPerms => ceaTail st senderAcct newAcctAddr newPerms
  | none =>
    match getAccount st sender with
    | some _ =>
        { result := .error (.invalidTransaction
            "Account already exists at address")
          state := st }
    | none =>
      match getAccount st globalPermissionsAddress with
      | none =>
          { result := .error (.fatal "nil global permissions account")
            state := st }
      | some global =>
        if ! hasPermission st global.address CreateAccountFlag then
          { result := .error (.invalidTransaction
              "New account creation is disabled")
            state := st }
        else
          let newAcct : Account :=
            { address := sender, balance := 0, code := []
              sequence := 1, permissions := global.permissions }
          match updateAccount st newAcct with
          | .error e =>
              { result := .error (.invalidTransaction
                  ("Failed to update account: " ++ e))
                state := st }
          | .ok st1 =>
              { result := .ok { newAccount := some newAcct }, state := st1 }

/-- The tail of the `CreateContractAccount` handler, from the point where
the new account's permissions have been resolved (source lines 264-333):
convert the sender address, derive the new address from it and the
pre-increment sequence, create an empty entry there, refetch an account at
`senderAcct.Address` (the source refetches the sender, not the derived
address), run the EVM on the init code, and store the refetched account
(sequence incremented, code set to the EVM output, permissions set to the
resolved pair) after the sender. -/
def ccaTail (vm : VmCall) (txn : CreateContractAccountTxn) (st : State)
    (senderAcct : Account) (newPerms : BasePermissions) : Outcome :=
  match newEvmAddrFromBytes senderAcct.address with
  | none =>
      { result := .error (.invalidTransaction "Could not convert evm address")
        state := st }
  | some creatorAddress =>
    let newAddress := derive creatorAddress senderAcct.sequence
    let senderAcct1 := { senderAcct with sequence := senderAcct.sequence + 1 }
    match newEntry st newAddress with
    | .error e => { result := .error (.fatal e), state := st }
    | .ok (_, st1) =>
      match getAccount st1 senderAcct1.address with
      | none =>
          { result := .error (.invalidTransaction "Could not get account")
            state := st1 }
      | some newAcct0 =>
        match vm st1 newAcct0 none txn.init [] txn.gasLimit with
        | (.error _, stVm) =>
            { result := .error (.invalidTransaction "Error while calling VM")
              state := stVm }
        | (.ok (out, gasUsed), stVm) =>
          let newAcct :=
            { newAcct0 with
                sequence := newAcct0.sequence + 1
                code := out
                permissions := newPerms }
          match updateAccount stVm senderAcct1 with
          | .error _ =>
              { result := .error (.invalidTransaction
                  "Error Updating sender account")
                state := stVm }
          | .ok st2 =>
            match updateAccount st2 newAcct with
            | .error _ =>
                { result := .error (.invalidTransaction
                    "Error updating new account")
                  state := st2 }
            | .ok st3 =>
                { result := .ok
                    { gasUsed := gasUsed, returnValue := out
                      newAccount := some newAcct }
                  state := st3 }

/-- The `CreateContractAccount` handler (`transaction_handlers.go`): the
existence, permission, nonce and permission-field checks, followed by
`ccaTail`. -/
def createContractAccount (vm : VmCall) (txn : CreateContractAccountTxn)
    (sender : Addr) (st : State) : Outcome :=
  match getAccount st sender with
  | none =>
      { result := .error (.invalidTransaction
          "Creating account must already exist to create contract account")
        state := st }
  | some senderAcct =>
    if ! hasPermission st senderAcct.address CreateContractFlag then
      { result := .error (.invalidTransaction
          "Sender account does not have permission to create contracts")
        state := st }
    else if txn.nonce ≠ senderAcct.sequence then
      { result := .error (.invalidTransaction "Nonces do not match")
        state := st }
    else
      let newPermsResult : Except TxnError BasePermissions :=
        match txn.permissions with
        | none => .ok (setFlagFalse senderAcct.permissions RootFlag)
        | some p =>
          if ! hasPermission st senderAcct.address RootFlag then
            .error (.invalidTransaction
              "Creating account does not have permission to set permissions")
          else .ok (toVmPermissions p)
      match newPermsResult with
      | .error e => { result := .error e, state := st }
      | .ok newPerms => ccaTail vm txn st senderAcct newPerms

/-- The `MessageCall` handler (`transaction_handlers.go`): existence,
permission and nonce checks, receiver decoding and existence check, then
the EVM runs the receiver's code on the call data; on success the sender
sequence is incremented and both prefetched account records are written
back (their `UpdateAccount` errors are discarded in the source). -/
def messageCall (vm : VmCall) (txn : MessageCallTxn) (sender : Addr)
    (st : State) : Outcome :=
  match getAccount st sender with
  | none =>
      { result := .error (.invalidTransaction
          "Sender account must already exist to message call")
        state := st }
  | some senderAcct =>
    if ! hasPermission st senderAcct.address CallFlag then
      { result := .error (.invalidTransaction
          "Sender account does not have permission to make message calls")
        state := st }
    else if txn.nonce ≠ senderAcct.sequence then
      { result := .error (.invalidTransaction "Nonces do not match")
        state := st }
    else
      match newEvmAddrFromBytes txn.toAddr with
      | none =>
          { result := .error (.invalidTransaction
              "Failed to construct receiver address for message call")
            state := st }
      | some receiver =>
        match getAccount st receiver with
        | none =>
            { result := .error (.invalidTransaction
                "Receiver account must already exist to call it")
              state := st }
        | some receiverAcct =>
          match vm st senderAcct (some receiverAcct) receiverAcct.code
              txn.data txn.gasLimit with
          | (.error e, stVm) =>
              { result := .error (.invalidTransaction e), state := stVm }
          | (.ok (out, gasUsed), stVm) =>
            let senderAcct1 :=
              { senderAcct with sequence := senderAcct.sequence + 1 }
            { result := .ok { gasUsed := gasUsed, returnValue := out }
              state := updateAccountD (updateAccountD stVm senderAcct1)
                receiverAcct }

/-- The `SetPermissions` handler (`transaction_handlers.go`): the
permissions field must be present; existence, Root-permission and nonce
checks; the receiver must exist except that a missing receiver at the
global permissions address is auto-created with sequence 1; then the sender
sequence is incremented, the receiver's permissions are overwritten
wholesale, and both records are written back (errors discarded). -/
def setPermissions (txn : SetPermissionsTxn) (sender : Addr)
    (st : State) : Outcome :=
  match txn.permissions with
  | none =>
      { result := .error (.invalidTransaction
          "Permissions field cannot be blank in UpdatePermissions transaction")
        state := st }
  | some p =>
    let newPerms := toVmPermissions p
    match getAccount st sender with
    | none =>
        { result := .error (.invalidTransaction
            "Sender account must already exist for updating permissions")
          state := st }
    | some senderAcct =>
      if ! hasPermission st senderAcct.address RootFlag then
        { result := .error (.invalidTransaction
            "Sender account does not have permission to change permissions")
          state := st }
      else if txn.nonce ≠ senderAcct.sequence then
        { result := .error (.invalidTransaction "Nonces do not match")
          state := st }
      else
        match newEvmAddrFromBytes txn.toAddr with
        | none =>
            { result := .error (.invalidTransaction
                "Failed to construct receiver address for permission change")
              state := st }
        | some receiver =>
          let receiverAcctResult : Except TxnError Account :=
            match getAccount st receiver with
            | some r => .ok r
            | none =>
              if receiver = globalPermissionsAddress then
                .ok { address := receiver, balance := 0, code := []
                      sequence := 1
                      permissions := { perms := 0, setBit := 0 } }
              else
                .error (.invalidTransaction
                  "Receiver account must already exist to change its permissions")
          match receiverAcctResult with
          | .error e => { result := .error e, state := st }
          | .ok receiverAcct =>
            let senderAcct1 :=
              { senderAcct with sequence := senderAcct.sequence + 1 }
            let receiverAcct1 := { receiverAcct with permissions := newPerms }
            { result := .ok {}
              state := updateAccountD (updateAccountD st senderAcct1)
                receiverAcct1 }


/-! Helper lemmas about the context association list. -/

theorem lookup_setEntry (st : State) (a b : Addr) (e : EvmEntry) :
    lookupEntry (setEntry st a e) b =
      if a = b then some e else lookupEntry st b := by
  induction st with
  | nil => by_cases h : a = b <;> simp [setEntry, lookupEntry, h]
  | cons p rest ih =>
    obtain ⟨c, e0⟩ := p
    simp only [setEntry]
    by_cases hca : c = a
    · subst hca
      simp only [if_pos rfl, lookupEntry]
      by_cases hcb : c = b <;> simp [hcb]
    · simp only [if_neg hca, lookupEntry, ih]
      by_cases hcb : c = b
      · subst hcb
        have hac : ¬ a = c := fun hh => hca hh.symm
        simp [hac]
      · simp [hcb]

theorem lookup_setEntry_self (st : State) (a : Addr) (e : EvmEntry) :
    lookupEntry (setEntry st a e) a = some e := by
  simp [lookup_setEntry]

theorem lookup_setEntry_ne (st : State) (a b : Addr) (e : EvmEntry)
    (h : a ≠ b) : lookupEntry (setEntry st a e) b = lookupEntry st b := by
  simp [lookup_setEntry, h]

theorem wf_lookup {st : State} {a : Addr} {e : EvmEntry}
    (hwf : wfState st = true) (h : lookupEntry st a = some e) :
    e.account.address = a ∧ a.length = 20 := by
  induction st with
  | nil => simp [lookupEntry] at h
  | cons p rest ih =>
    obtain ⟨c, e0⟩ := p
    simp only [wfState, List.all_cons, Bool.and_eq_true] at hwf
    by_cases hca : c = a
    · subst hca
      obtain rfl : e0 = e := by simpa [lookupEntry] using h
      obtain ⟨⟨h1, h2⟩, _⟩ := hwf
      exact ⟨by simpa using h1, by simpa using h2⟩
    · simp only [lookupEntry, if_neg hca] at h
      exact ih (by simp [wfState, hwf.2]) h

theorem updateAccount_ok (st : State) (acct : Account)
    (h : acct.address.length = 20) :
    updateAccount st acct = .ok (setEntry st acct.address
      { account := toStateAccount acct
        storage := ((lookupEntry st acct.address).map EvmEntry.storage).getD [] }) := by
  unfold updateAccount newEvmAddrFromBytes
  rw [if_pos h]
  cases hl : lookupEntry st acct.address <;> simp [hl, freshEntry]

theorem updateAccountD_eq (st : State) (acct : Account)
    (h : acct.address.length = 20) :
    updateAccountD st acct = setEntry st acct.address
      { account := toStateAccount acct
        storage := ((lookupEntry st acct.address).map EvmEntry.storage).getD [] } := by
  unfold updateAccountD
  rw [updateAccount_ok st acct h]

/-! Storage round-trip and uniqueness lemmas. -/

theorem leftPad32_self {b : List Nat} (h : b.length = 32) : leftPad32 b = b := by
  simp [leftPad32, h]

theorem getStorageList_setStorageList (s : List EvmStorage)
    (k v : List Nat) (hk : leftPad32 k = k) :
    getStorageList (setStorageList s k v) k = leftPad32 v := by
  induction s with
  | nil => simp [setStorageList, getStorageList, hk]
  | cons p rest ih =>
    by_cases h : leftPad32 p.key = k <;>
      simp [setStorageList, getStorageList, h, ih]

theorem setStorageList_mem (s : List EvmStorage) (k v : List Nat)
    (hmem : k ∈ paddedKeys s) :
    paddedKeys (setStorageList s k v) = paddedKeys s ∧
      (setStorageList s k v).length = s.length := by
  induction s with
  | nil => simp [paddedKeys] at hmem
  | cons p rest ih =>
    by_cases h : leftPad32 p.key = k
    · simp [setStorageList, h, paddedKeys]
    · have hmem1 : k ∈ paddedKeys rest := by
        rcases (by simpa [paddedKeys] using hmem) with h1 | h1
        · exact absurd h1.symm h
        · simpa [paddedKeys] using h1
      obtain ⟨h1, h2⟩ := ih hmem1
      simp [setStorageList, h, paddedKeys] at h1 ⊢
      exact ⟨h1, h2⟩

theorem setStorageList_notMem (s : List EvmStorage) (k v : List Nat)
    (hmem : k ∉ paddedKeys s) :
    setStorageList s k v = s ++ [{ key := k, value := v }] := by
  induction s with
  | nil => simp [setStorageList]
  | cons p rest ih =>
    have hne : leftPad32 p.key ≠ k := fun hc => hmem (by simp [paddedKeys, hc])
    have hrest : k ∉ paddedKeys rest := fun hc => hmem (by
      simp only [paddedKeys, List.map_cons, List.mem_cons]
      exact Or.inr (by simpa [paddedKeys] using hc))
    simp [setStorageList, hne, ih hrest]

/-! Concrete fixtures used by witnesses and counterexamples. -/

/-- A sample 20-byte sender address. -/
def addrA : Addr := 0xaa :: List.replicate 19 1

/-- A second sample 20-byte address. -/
def addrB : Addr := 0xbb :: List.replicate 19 2

/-- Permissions granting every flag, governing every flag. -/
def permsAll : BasePermissions := { perms := AllFlags, setBit := AllFlags }

/-- A sample entry for an account at `addrA` holding all permissions. -/
def entryA : EvmEntry :=
  { account :=
      { address := addrA, balance := 0, code := [], nonce := 0
        permissions := { perms := AllFlags, setBit := AllFlags } }
    storage := [] }

/-- A one-account context holding `entryA`. -/
def stA : State := [(addrA, entryA)]

/-- An entry with two storage pairs with distinct keys. -/
def entryS : EvmEntry :=
  { account :=
      { address := addrA, balance := 0, code := [], nonce := 0
        permissions := { perms := 0, setBit := 0 } }
    storage := [{ key := [1], value := [9] }, { key := [2], value := [8] }] }

/-- A one-account context holding `entryS`. -/
def stS : State := [(addrA, entryS)]

/-- A sample 32-byte storage key equal to the left-padding of `[1]`. -/
def keyW : List Nat := List.replicate 31 0 ++ [1]

/-- A sample 32-byte storage value. -/
def valW : List Nat := List.replicate 31 0 ++ [7]

/-! Claim C7: the storage round trip. -/

/-- C7: for every existing account `a`, key `k` and value `v` (32-byte
words, as the EVM adapter receives them), `SetStorage(a, k, v)` followed by
`GetStorage(a, k)` returns `v` left-padded to 32 bytes, whatever the
entry's prior storage contents. -/
theorem setStorage_roundTrip (st : State) (a : Addr) (k v : List Nat)
    (entry : EvmEntry) (hent : lookupEntry st a = some entry)
    (hk : k.length = 32) (_hv : v.length = 32) :
    ∃ st1, setStorage st a k v = some st1 ∧
      getStorage st1 a k = some (leftPad32 v) := by
  unfold setStorage
  rw [hent]
  refine ⟨_, rfl, ?_⟩
  unfold getStorage
  rw [lookup_setEntry_self]
  exact congrArg some (getStorageList_setStorageList _ _ _ (leftPad32_self hk))

/-- Witness for C7 at a concrete context whose entry already holds two
other pairs. -/
theorem setStorage_roundTrip_witness :
    ∃ st1, setStorage stS addrA keyW valW = some st1 ∧
      getStorage st1 addrA keyW = some (leftPad32 valW) :=
  setStorage_roundTrip stS addrA keyW valW entryS (by decide) (by decide)
    (by decide)

/-! Claim C8: storage-key uniqueness is preserved by SetStorage. -/

/-- C8: starting from a storage list whose keys are pairwise distinct after
left-padding to 32 bytes, any `SetStorage` call preserves that
distinctness: a call whose (32-byte) key matches an existing padded key
overwrites that pair in place, leaving the length and the key sequence
unchanged, and a call with a new key appends exactly one pair at the end. -/
theorem setStorage_keyUniqueness (s : List EvmStorage) (k v : List Nat)
    (hk : k.length = 32) (hnodup : (paddedKeys s).Nodup) :
    (paddedKeys (setStorageList s k v)).Nodup ∧
      (k ∈ paddedKeys s →
        (setStorageList s k v).length = s.length ∧
          paddedKeys (setStorageList s k v) = paddedKeys s) ∧
      (k ∉ paddedKeys s →
        setStorageList s k v = s ++ [{ key := k, value := v }]) := by
  by_cases hmem : k ∈ paddedKeys s
  · obtain ⟨h1, h2⟩ := setStorageList_mem s k v hmem
    exact ⟨h1 ▸ hnodup, fun _ => ⟨h2, h1⟩, fun hc => absurd hmem hc⟩
  · have h3 := setStorageList_notMem s k v hmem
    refine ⟨?_, fun hc => absurd hc hmem, fun _ => h3⟩
    rw [h3]
    have h4 : paddedKeys (s ++ [{ key := k, value := v }]) =
        paddedKeys s ++ [leftPad32 k] := by simp [paddedKeys]
    rw [h4, leftPad32_self hk]
    simp [List.nodup_append, hnodup, hmem]

/-- Witness for C8 at a concrete two-pair storage list and an existing
key. -/
theorem setStorage_keyUniqueness_witness :
    (paddedKeys (setStorageList entryS.storage keyW valW)).Nodup ∧
      (keyW ∈ paddedKeys entryS.storage →
        (setStorageList entryS.storage keyW valW).length =
            entryS.storage.length ∧
          paddedKeys (setStorageList entryS.storage keyW valW) =
            paddedKeys entryS.storage) ∧
      (keyW ∉ paddedKeys entryS.storage →
        setStorageList entryS.storage keyW valW =
          entryS.storage ++ [{ key := keyW, value := valW }]) :=
  setStorage_keyUniqueness entryS.storage keyW valW (by decide) (by decide)

/-! Claim C9: the Log callback fires exactly one event of the documented
shape. -/

/-- The fold in the Log callback appends exactly one attribute per
enumerated topic, in order. -/
theorem logAttrs_foldl (l : List (Nat × List Nat)) (init : List Attribute) :
    l.foldl
        (fun acc p =>
          acc ++ [{ key := "topic" ++ toString (p.1 + 1)
                    value := hexEncode p.2 }])
        init =
      init ++ l.map (fun p =>
        { key := "topic" ++ toString (p.1 + 1), value := hexEncode p.2 }) := by
  induction l generalizing init with
  | nil => simp
  | cons x xs ih => simp [ih]

/-- C9: for every Log callback with address `a`, at most four topics and
data `d`, exactly one validator event of type seth_log_event is emitted;
its attribute list is the address attribute, the eventID attribute, then
one topicN attribute per topic (N counted from 1, the topic hex-encoded),
in that order, and its body is `d` unchanged. -/
theorem logEvent_shape (a : Addr) (topics : List (List Nat)) (d : List Nat)
    (_hlen : topics.length ≤ 4) :
    logCallback a topics d =
      [{ eventType := "seth_log_event"
         attributes :=
           { key := "address", value := hexEncode a } ::
             { key := "eventID", value := addressString a } ::
               topics.enum.map (fun p =>
                 { key := "topic" ++ toString (p.1 + 1)
                   value := hexEncode p.2 })
         body := d }] := by
  unfold logCallback
  rw [logAttrs_foldl]
  simp

/-- Witness for C9 at a concrete one-topic log. -/
theorem logEvent_shape_witness :
    logCallback addrA [[0xde, 0xad]] [0xbe, 0xef] =
      [{ eventType := "seth_log_event"
         attributes :=
           { key := "address", value := hexEncode addrA } ::
             { key := "eventID", value := addressString addrA } ::
               ([[0xde, 0xad]] : List (List Nat)).enum.map (fun p =>
                 { key := "topic" ++ toString (p.1 + 1)
                   value := hexEncode p.2 })
         body := [0xbe, 0xef] }] :=
  logEvent_shape addrA [[0xde, 0xad]] [0xbe, 0xef] (by decide)

/-! Claim C10: UpdateAccount has upsert semantics. -/

/-- C10: for every account value (with a well-typed 20-byte address),
UpdateAccount succeeds whether or not an entry exists at the account's
address — creating a fresh entry when none exists instead of failing — and
afterwards the stored entry's account record equals the supplied account
converted to state form, with the previous storage list (empty for a fresh
entry) preserved. -/
theorem updateAccount_upsert (st : State) (acct : Account)
    (h : acct.address.length = 20) :
    ∃ st1, updateAccount st acct = .ok st1 ∧
      lookupEntry st1 acct.address =
        some { account := toStateAccount acct
               storage :=
                 ((lookupEntry st acct.address).map EvmEntry.storage).getD [] } :=
  ⟨_, updateAccount_ok st acct h, lookup_setEntry_self _ _ _⟩

/-- Witness for C10 on an empty context (the entry does not yet exist). -/
theorem updateAccount_upsert_witness :
    ∃ st1, updateAccount [] (toVmAccount entryA.account) = .ok st1 ∧
      lookupEntry st1 (toVmAccount entryA.account).address =
        some { account := toStateAccount (toVmAccount entryA.account)
               storage :=
                 ((lookupEntry ([] : State)
                     (toVmAccount entryA.account).address).map
                   EvmEntry.storage).getD [] } :=
  updateAccount_upsert [] (toVmAccount entryA.account) (by decide)

/-! Claim C2: a nonce mismatch is rejected by every handler. -/

/-- A virtual machine that reads and writes nothing and returns an empty
output, used to instantiate handler theorems at concrete inputs. -/
def idVm : VmCall := fun s _ _ _ _ _ => (.ok ([], 0), s)

/-- C2: for each of the four handlers (the on-behalf branch of
CreateExternalAccount, CreateContractAccount, MessageCall, SetPermissions),
whenever the sender account exists, holds the permission the handler
requires, and the transaction nonce differs from the sender account's
stored sequence, the handler returns an InvalidTransaction error. -/
theorem nonceMismatchRejected :
    (∀ (txn : CreateExternalAccountTxn) (sender : Addr) (st : State)
        (b : List Nat) (sacct : Account),
      txn.toAddr = some b →
      getAccount st sender = some sacct →
      hasPermission st sacct.address CreateAccountFlag = true →
      txn.nonce ≠ sacct.sequence →
      ∃ m, (createExternalAccount txn sender st).result =
        .error (.invalidTransaction m)) ∧
    (∀ (vm : VmCall) (txn : CreateContractAccountTxn) (sender : Addr)
        (st : State) (sacct : Account),
      getAccount st sender = some sacct →
      hasPermission st sacct.address CreateContractFlag = true →
      txn.nonce ≠ sacct.sequence →
      ∃ m, (createContractAccount vm txn sender st).result =
        .error (.invalidTransaction m)) ∧
    (∀ (vm : VmCall) (txn : MessageCallTxn) (sender : Addr) (st : State)
        (sacct : Account),
      getAccount st sender = some sacct →
      hasPermission st sacct.address CallFlag = true →
      txn.nonce ≠ sacct.sequence →
      ∃ m, (messageCall vm txn sender st).result =
        .error (.invalidTransaction m)) ∧
    (∀ (txn : SetPermissionsTxn) (sender : Addr) (st : State)
        (sacct : Account),
      getAccount st sender = some sacct →
      hasPermission st sacct.address RootFlag = true →
      txn.nonce ≠ sacct.sequence →
      ∃ m, (setPermissions txn sender st).result =
        .error (.invalidTransaction m)) := by
  refine ⟨?_, ?_, ?_, ?_⟩
  · intro txn sender st b sacct hto hga hperm hnonce
    refine ⟨"Nonces do not match", ?_⟩
    simp only [createExternalAccount, hto, hga]
    simp [hperm, hnonce]
  · intro vm txn sender st sacct hga hperm hnonce
    refine ⟨"Nonces do not match", ?_⟩
    simp only [createContractAccount, hga]
    simp [hperm, hnonce]
  · intro vm txn sender st sacct hga hperm hnonce
    refine ⟨"Nonces do not match", ?_⟩
    simp only [messageCall, hga]
    simp [hperm, hnonce]
  · intro txn sender st sacct hga hperm hnonce
    cases hp : txn.permissions with
    | none =>
      exact ⟨"Permissions field cannot be blank in UpdatePermissions transaction",
        by simp [setPermissions, hp]⟩
    | some p =>
      refine ⟨"Nonces do not match", ?_⟩
      simp only [setPermissions, hp, hga]
      simp [hperm, hnonce]

/-- Witness for C2: each of the four handlers rejects a nonce-5 transaction
against a sender whose stored sequence is 0. -/
theorem nonceMismatchRejected_witness :
    (∃ m, (createExternalAccount
        { toAddr := some addrB, nonce := 5, permissions := none }
        addrA stA).result = .error (.invalidTransaction m)) ∧
    (∃ m, (createContractAccount idVm
        { init := [], gasLimit := 100, nonce := 5, permissions := none }
        addrA stA).result = .error (.invalidTransaction m)) ∧
    (∃ m, (messageCall idVm
        { toAddr := addrB, data := [], gasLimit := 100, nonce := 5 }
        addrA stA).result = .error (.invalidTransaction m)) ∧
    (∃ m, (setPermissions
        { toAddr := addrA, permissions := some { perms := 1, setBit := 1 },
          nonce := 5 }
        addrA stA).result = .error (.invalidTransaction m)) :=
  ⟨nonceMismatchRejected.1 _ addrA stA addrB (toVmAccount entryA.account)
      rfl (by decide) (by decide) (by decide),
    nonceMismatchRejected.2.1 idVm _ addrA stA (toVmAccount entryA.account)
      (by decide) (by decide) (by decide),
    nonceMismatchRejected.2.2.1 idVm _ addrA stA (toVmAccount entryA.account)
      (by decide) (by decide) (by decide),
    nonceMismatchRejected.2.2.2 _ addrA stA (toVmAccount entryA.account)
      (by decide) (by decide) (by decide)⟩

/-! Claim C5: the self-bootstrap branch of CreateExternalAccount. -/

/-- True when a handler result is a success. -/
def isOkResult : Except TxnError HandlerResult → Bool
  | .ok _ => true
  | .error _ => false

/-- The global-permissions account entry as the dispatcher bootstraps it:
every flag governed and granted. -/
def entryG : EvmEntry :=
  { account :=
      { address := globalPermissionsAddress, balance := 0, code := []
        nonce := 1
        permissions := { perms := AllFlags, setBit := AllFlags } }
    storage := [] }

/-- A context holding only the bootstrapped global-permissions account. -/
def stG : State := [(globalPermissionsAddress, entryG)]

/-- The self-bootstrap transaction: no target, nonce 0, no permissions. -/
def txnBootstrap : CreateExternalAccountTxn :=
  { toAddr := none, nonce := 0, permissions := none }

/-- A missing entry gives a missing account and conversely. -/
theorem getAccount_none_iff (st : State) (a : Addr) :
    getAccount st a = none ↔ lookupEntry st a = none := by
  unfold getAccount
  cases lookupEntry st a <;> simp

/-- C5 counterexample: on a context holding only the bootstrapped global
account (whose permission masks are all-ones, so Root is granted), a
self-bootstrap CreateExternalAccount succeeds and the new account at the
sender address stores the global permission pair verbatim: its Root bit is
still on, so its permissions differ from the global permissions with the
Root bit forced off, contradicting the claim at this input. -/
theorem selfBootstrap_rootKept :
    isOkResult (createExternalAccount txnBootstrap addrA stG).result = true ∧
      ((lookupEntry (createExternalAccount txnBootstrap addrA stG).state
            addrA).map
          (fun e => e.account.permissions)) =
        some { perms := AllFlags, setBit := AllFlags } ∧
      AllFlags &&& RootFlag ≠ 0 ∧
      toStatePermissions (setFlagFalse permsAll RootFlag) ≠
        { perms := AllFlags, setBit := AllFlags } := by decide

/-- C5 (amended): for every CreateExternalAccount with `to` unset, applied
when no account exists at the sender address and the global-permissions
account grants CreateAccount, the handler succeeds and the post-state has
an account at the sender address with nonce 1 whose permissions equal the
global-permissions account's permission pair verbatim (the source's
self-bootstrap branch copies `global.Permissions` and does not force the
Root bit off). -/
theorem selfBootstrap_spec (txn : CreateExternalAccountTxn) (sender : Addr)
    (st : State) (g : Account)
    (hto : txn.toAddr = none)
    (hsender : getAccount st sender = none)
    (hglobal : getAccount st globalPermissionsAddress = some g)
    (hperm : hasPermission st g.address CreateAccountFlag = true)
    (hlen : sender.length = 20) :
    ∃ r, (createExternalAccount txn sender st).result = .ok r ∧
      lookupEntry (createExternalAccount txn sender st).state sender =
        some { account :=
                 { address := sender, balance := 0, code := [], nonce := 1
                   permissions := toStatePermissions g.permissions }
               storage := [] } := by
  have hlook : lookupEntry st sender = none :=
    (getAccount_none_iff st sender).1 hsender
  simp only [createExternalAccount, hto, hsender, hglobal]
  rw [updateAccount_ok st _ (by simpa using hlen)]
  simp [hperm, lookup_setEntry, hlook, toStateAccount]

/-- Witness for the amended C5 on the concrete bootstrapped context. -/
theorem selfBootstrap_spec_witness :
    ∃ r, (createExternalAccount txnBootstrap addrA stG).result = .ok r ∧
      lookupEntry (createExternalAccount txnBootstrap addrA stG).state
          addrA =
        some { account :=
                 { address := addrA, balance := 0, code := [], nonce := 1
                   permissions :=
                     toStatePermissions
                       (toVmAccount entryG.account).permissions }
               storage := [] } :=
  selfBootstrap_spec txnBootstrap addrA stG (toVmAccount entryG.account)
    rfl (by decide) (by decide) (by decide) (by decide)

/-! Claim C4: error paths and context writes. -/

/-- A decoded address has length 20. -/
theorem newEvmAddrFromBytes_length {b : List Nat} {a : Addr}
    (h : newEvmAddrFromBytes b = some a) : a.length = 20 := by
  unfold newEvmAddrFromBytes at h
  by_cases hb : b.length = 20
  · rw [if_pos hb] at h
    cases h
    exact hb
  · rw [if_neg hb] at h
    cases h

/-- A decoded address equals the input bytes. -/
theorem newEvmAddrFromBytes_eq {b : List Nat} {a : Addr}
    (h : newEvmAddrFromBytes b = some a) : a = b := by
  unfold newEvmAddrFromBytes at h
  by_cases hb : b.length = 20
  · rw [if_pos hb] at h
    cases h
    rfl
  · rw [if_neg hb] at h
    cases h

/-- Every CreateExternalAccount error path leaves the context untouched. -/
theorem cea_error_state (txn : CreateExternalAccountTxn) (sender : Addr)
    (st : State) (e : TxnError) :
    (createExternalAccount txn sender st).result = .error e →
    (createExternalAccount txn sender st).state = st := by
  unfold createExternalAccount
  cases hto : txn.toAddr with
  | none =>
    cases hga : getAccount st sender with
    | some sacct => simp [hga]
    | none =>
      simp only [hga]
      cases hg : getAccount st globalPermissionsAddress with
      | none => simp [hg]
      | some g =>
        simp only [hg]
        by_cases hperm : hasPermission st g.address CreateAccountFlag = true
        · rw [if_neg (show ¬((!hasPermission st g.address CreateAccountFlag)
              = true) by simp [hperm])]
          split <;> simp
        · have hfalse : hasPermission st g.address CreateAccountFlag
              = false := by simpa using hperm
          simp [hfalse]
  | some b =>
    cases hga : getAccount st sender with
    | none => simp [hga]
    | some sacct =>
      simp only [hga]
      by_cases hperm : hasPermission st sacct.address CreateAccountFlag = true
      · rw [if_neg (show ¬((!hasPermission st sacct.address CreateAccountFlag)
            = true) by simp [hperm])]
        by_cases hnonce : txn.nonce = sacct.sequence
        · rw [if_neg (show ¬(txn.nonce ≠ sacct.sequence) from
            fun hc => hc hnonce)]
          cases hnb : newEvmAddrFromBytes b with
          | none => simp [hnb]
          | some newAcctAddr =>
            simp only [hnb]
            cases hex : getAccount st newAcctAddr with
            | some x => simp [hex]
            | none =>
              simp only [hex]
              have hlen2 : newAcctAddr.length = 20 :=
                newEvmAddrFromBytes_length hnb
              have hstep : ∀ newPerms : BasePermissions,
                  (ceaTail st sacct newAcctAddr newPerms).result =
                      .error e →
                  (ceaTail st sacct newAcctAddr newPerms).state = st := by
                intro newPerms
                unfold ceaTail
                simp only []
                split
                · simp
                · rw [updateAccount_ok _ _ (by simpa using hlen2)]
                  simp
              cases hp : txn.permissions with
              | none =>
                simp only []
                exact hstep _
              | some p =>
                simp only []
                by_cases hroot : hasPermission st sacct.address RootFlag = true
                · rw [if_neg (show ¬((!hasPermission st sacct.address RootFlag)
                      = true) by simp [hroot])]
                  simp only []
                  exact hstep _
                · have hfalse : hasPermission st sacct.address RootFlag
                      = false := by simpa using hroot
                  simp [hfalse]
        · rw [if_pos hnonce]
          simp
      · have hfalse : hasPermission st sacct.address CreateAccountFlag
            = false := by simpa using hperm
        simp [hfalse]

/-- Every SetPermissions error path leaves the context untouched. -/
theorem sp_error_state (txn : SetPermissionsTxn) (sender : Addr)
    (st : State) (e : TxnError) :
    (setPermissions txn sender st).result = .error e →
    (setPermissions txn sender st).state = st := by
  unfold setPermissions
  cases hp : txn.permissions with
  | none => simp [hp]
  | some p =>
    cases hga : getAccount st sender with
    | none => simp [hga]
    | some sacct =>
      simp only [hga]
      by_cases hperm : hasPermission st sacct.address RootFlag = true
      · rw [if_neg (show ¬((!hasPermission st sacct.address RootFlag)
            = true) by simp [hperm])]
        by_cases hnonce : txn.nonce = sacct.sequence
        · rw [if_neg (show ¬(txn.nonce ≠ sacct.sequence) from
            fun hc => hc hnonce)]
          cases hnb : newEvmAddrFromBytes txn.toAddr with
          | none => simp [hnb]
          | some receiver =>
            simp only [hnb]
            cases hrec : getAccount st receiver with
            | some r => simp [hrec]
            | none =>
              simp only [hrec]
              by_cases hgl : receiver = globalPermissionsAddress
              · simp [hgl]
              · simp [hgl]
        · rw [if_pos hnonce]
          simp
      · have hfalse : hasPermission st sacct.address RootFlag = false := by
          simpa using hperm
        simp [hfalse]

/-- A virtual machine that leaves the context untouched whenever it
fails. -/
def VmCleanOnError (vm : VmCall) : Prop :=
  ∀ s caller callee code input gas e,
    (vm s caller callee code input gas).1 = .error e →
    (vm s caller callee code input gas).2 = s

/-- An existing account comes from a stored entry. -/
theorem getAccount_some {st : State} {a : Addr} {acct : Account}
    (h : getAccount st a = some acct) :
    ∃ e, lookupEntry st a = some e ∧ acct = toVmAccount e.account := by
  unfold getAccount at h
  cases hl : lookupEntry st a with
  | none => rw [hl] at h; cases h
  | some e =>
    rw [hl] at h
    exact ⟨e, rfl, by simpa using h.symm⟩

/-- Every MessageCall error path leaves the context untouched, provided
the EVM writes nothing when it fails. -/
theorem mc_error_state (vm : VmCall) (txn : MessageCallTxn) (sender : Addr)
    (st : State) (e : TxnError) (hclean : VmCleanOnError vm) :
    (messageCall vm txn sender st).result = .error e →
    (messageCall vm txn sender st).state = st := by
  unfold messageCall
  cases hga : getAccount st sender with
  | none => simp [hga]
  | some sacct =>
    simp only [hga]
    by_cases hperm : hasPermission st sacct.address CallFlag = true
    · rw [if_neg (show ¬((!hasPermission st sacct.address CallFlag)
          = true) by simp [hperm])]
      by_cases hnonce : txn.nonce = sacct.sequence
      · rw [if_neg (show ¬(txn.nonce ≠ sacct.sequence) from
          fun hc => hc hnonce)]
        cases hnb : newEvmAddrFromBytes txn.toAddr with
        | none => simp [hnb]
        | some receiver =>
          simp only [hnb]
          cases hrec : getAccount st receiver with
          | none => simp [hrec]
          | some racct =>
            simp only [hrec]
            split
            next e1 stVm heq =>
              have h1 : (vm st sacct (some racct) racct.code txn.data
                  txn.gasLimit).1 = .error e1 := by rw [heq]
              have h2 := hclean st sacct (some racct) racct.code txn.data
                txn.gasLimit e1 h1
              rw [heq] at h2
              intro _
              simpa using h2
            next out gasUsed stVm heq => simp
      · rw [if_pos hnonce]
        simp
    · have hfalse : hasPermission st sacct.address CallFlag = false := by
        simpa using hperm
      simp [hfalse]

/-- Every CreateContractAccount error path either leaves the context
untouched or leaves it with exactly one fresh entry added (the empty entry
created at the derived address before the EVM was invoked), provided the
context is well-formed and the EVM writes nothing when it fails. -/
theorem cca_error_state (vm : VmCall) (txn : CreateContractAccountTxn)
    (sender : Addr) (st : State) (e : TxnError)
    (hwf : wfState st = true) (hclean : VmCleanOnError vm) :
    (createContractAccount vm txn sender st).result = .error e →
    (createContractAccount vm txn sender st).state = st ∨
      ∃ d, (createContractAccount vm txn sender st).state =
        setEntry st d (freshEntry d) := by
  unfold createContractAccount
  cases hga : getAccount st sender with
  | none => simp [hga]
  | some sacct =>
    simp only [hga]
    obtain ⟨entry, hlook, hacct⟩ := getAccount_some hga
    obtain ⟨haddr, hlen20⟩ := wf_lookup hwf hlook
    have hsaddr : sacct.address = sender := by
      rw [hacct]; simpa [toVmAccount] using haddr
    have hlen : sacct.address.length = 20 := by rw [hsaddr]; exact hlen20
    by_cases hperm : hasPermission st sacct.address CreateContractFlag = true
    · rw [if_neg (show ¬((!hasPermission st sacct.address CreateContractFlag)
          = true) by simp [hperm])]
      by_cases hnonce : txn.nonce = sacct.sequence
      · rw [if_neg (show ¬(txn.nonce ≠ sacct.sequence) from
          fun hc => hc hnonce)]
        have hnb : newEvmAddrFromBytes sacct.address =
            some sacct.address := by
          simp [newEvmAddrFromBytes, hlen]
        have hstep : ∀ newPerms : BasePermissions,
            (ccaTail vm txn st sacct newPerms).result = .error e →
            (ccaTail vm txn st sacct newPerms).state = st ∨
              ∃ d, (ccaTail vm txn st sacct newPerms).state =
                setEntry st d (freshEntry d) := by
          intro newPerms
          unfold ccaTail
          rw [hnb]
          cases hlk : lookupEntry st (derive sacct.address sacct.sequence) with
          | some x => simp [newEntry, hlk]
          | none =>
            simp only [newEntry, hlk]
            have hne2 : derive sacct.address sacct.sequence ≠
                sacct.address := by
              intro hc
              rw [hc, hsaddr, hlook] at hlk
              cases hlk
            have hga1 : getAccount
                (setEntry st (derive sacct.address sacct.sequence)
                  (freshEntry (derive sacct.address sacct.sequence)))
                sacct.address = some sacct := by
              unfold getAccount
              rw [lookup_setEntry_ne _ _ _ _ hne2, hsaddr, hlook]
              simp [hacct]
            simp only [hga1]
            cases hvm : vm
                (setEntry st (derive sacct.address sacct.sequence)
                  (freshEntry (derive sacct.address sacct.sequence)))
                sacct none txn.init [] txn.gasLimit with
            | mk res stVm =>
              cases res with
              | error e1 =>
                simp only [hvm]
                intro _
                refine Or.inr ⟨derive sacct.address sacct.sequence, ?_⟩
                have h2 := hclean _ _ _ _ _ _ e1 (by rw [hvm])
                rw [hvm] at h2
                simpa using h2
              | ok val =>
                obtain ⟨out, gasUsed⟩ := val
                simp only [hvm]
                rw [updateAccount_ok stVm _ (by simpa using hlen)]
                simp only []
                rw [updateAccount_ok _ _ (by simpa using hlen)]
                simp
        cases hp : txn.permissions with
        | none =>
          simp only []
          exact hstep _
        | some p =>
          simp only []
          by_cases hroot : hasPermission st sacct.address RootFlag = true
          · rw [if_neg (show ¬((!hasPermission st sacct.address RootFlag)
                = true) by simp [hroot])]
            simp only []
            exact hstep _
          · have hfalse : hasPermission st sacct.address RootFlag
                = false := by simpa using hroot
            simp [hfalse]
      · rw [if_pos hnonce]
        simp
    · have hfalse : hasPermission st sacct.address CreateContractFlag
          = false := by simpa using hperm
      simp [hfalse]

/-- A virtual machine that always fails, without touching the context. -/
def vmFail : VmCall := fun s _ _ _ _ _ => (.error "vm error", s)

/-- A contract-creation transaction used at concrete inputs. -/
def txnCC : CreateContractAccountTxn :=
  { init := [0x60], gasLimit := 1000, nonce := 0, permissions := none }

/-- C4 counterexample: CreateContractAccount creates the empty entry at the
derived address before invoking the EVM, so when the EVM fails the handler
returns an error after a write has already reached the validator context:
at this concrete input the returned context differs from the initial one
and holds the fresh entry at the derived address. -/
theorem ccaWriteReachesContextOnError :
    isOkResult (createContractAccount vmFail txnCC addrA stA).result =
        false ∧
      (createContractAccount vmFail txnCC addrA stA).state ≠ stA ∧
      (lookupEntry (createContractAccount vmFail txnCC addrA stA).state
          (derive addrA 0)).isSome = true := by decide

/-- C4 (amended): every error path of CreateExternalAccount and
SetPermissions leaves the validator context exactly as it was; assuming the
EVM writes nothing when it fails, so does every MessageCall error path; but
CreateContractAccount creates the new empty entry at the derived address
before invoking the EVM, so (on a well-formed context, with such an EVM)
its error paths leave the context either untouched or with exactly that
one fresh entry added — the remaining cleanup is left to the validator's
rollback. -/
theorem errorPathsAtomic :
    (∀ (txn : CreateExternalAccountTxn) (sender : Addr) (st : State)
        (e : TxnError),
      (createExternalAccount txn sender st).result = .error e →
      (createExternalAccount txn sender st).state = st) ∧
    (∀ (txn : SetPermissionsTxn) (sender : Addr) (st : State) (e : TxnError),
      (setPermissions txn sender st).result = .error e →
      (setPermissions txn sender st).state = st) ∧
    (∀ (vm : VmCall) (txn : MessageCallTxn) (sender : Addr) (st : State)
        (e : TxnError), VmCleanOnError vm →
      (messageCall vm txn sender st).result = .error e →
      (messageCall vm txn sender st).state = st) ∧
    (∀ (vm : VmCall) (txn : CreateContractAccountTxn) (sender : Addr)
        (st : State) (e : TxnError),
      wfState st = true → VmCleanOnError vm →
      (createContractAccount vm txn sender st).result = .error e →
      ((createContractAccount vm txn sender st).state = st ∨
        ∃ d, (createContractAccount vm txn sender st).state =
          setEntry st d (freshEntry d))) :=
  ⟨cea_error_state, sp_error_state,
    fun vm txn sender st e hclean => mc_error_state vm txn sender st e hclean,
    fun vm txn sender st e hwf hclean =>
      cca_error_state vm txn sender st e hwf hclean⟩

/-- Witness for the amended C4 at concrete failing inputs for all four
handlers. -/
theorem errorPathsAtomic_witness :
    (createExternalAccount txnBootstrap addrA stA).state = stA ∧
      (setPermissions
          { toAddr := addrB, permissions := some { perms := 1, setBit := 1 }
            nonce := 0 } addrA stA).state = stA ∧
      (messageCall vmFail
          { toAddr := addrB, data := [], gasLimit := 100, nonce := 0 }
          addrA stA).state = stA ∧
      ((createContractAccount vmFail txnCC addrA stA).state = stA ∨
        ∃ d, (createContractAccount vmFail txnCC addrA stA).state =
          setEntry stA d (freshEntry d)) :=
  ⟨errorPathsAtomic.1 txnBootstrap addrA stA
      (.invalidTransaction "Account already exists at address") (by decide),
    errorPathsAtomic.2.1 _ addrA stA
      (.invalidTransaction
        "Receiver account must already exist to change its permissions")
      (by decide),
    errorPathsAtomic.2.2.1 vmFail _ addrA stA
      (.invalidTransaction "Receiver account must already exist to call it")
      (fun _ _ _ _ _ _ _ _ => rfl) (by decide),
    errorPathsAtomic.2.2.2 vmFail txnCC addrA stA
      (.invalidTransaction "Error while calling VM") (by decide)
      (fun _ _ _ _ _ _ _ _ => rfl) (by decide)⟩

/-! Claim C3: nonce increments on success. -/

/-- Nonce preservation between two contexts: every account stored in the
first is stored in the second with the same nonce. -/
def noncesPreserved (st st1 : State) : Prop :=
  ∀ b e, lookupEntry st b = some e →
    ∃ e1, lookupEntry st1 b = some e1 ∧ e1.account.nonce = e.account.nonce

/-- A virtual machine whose runs never change the nonce of a stored
account (the spec's exception: the EVM itself bumps a contract's nonce on
a contract sub-creation, which this rules out). -/
def VmPreservesNonces (vm : VmCall) : Prop :=
  ∀ s caller callee code input gas,
    noncesPreserved s (vm s caller callee code input gas).2

/-- A successful on-behalf CreateExternalAccount increments the sender
nonce by exactly one and preserves the nonce of every other stored
account. -/
theorem cea_success_nonces (txn : CreateExternalAccountTxn) (sender : Addr)
    (st : State) (r : HandlerResult) (sacct : Account)
    (hwf : wfState st = true)
    (hga : getAccount st sender = some sacct) :
    (createExternalAccount txn sender st).result = .ok r →
    (∃ e1, lookupEntry (createExternalAccount txn sender st).state sender =
        some e1 ∧ e1.account.nonce = sacct.sequence + 1) ∧
    (∀ b2 e2, b2 ≠ sender → lookupEntry st b2 = some e2 →
      ∃ e1, lookupEntry (createExternalAccount txn sender st).state b2 =
        some e1 ∧ e1.account.nonce = e2.account.nonce) := by
  obtain ⟨entry, hlook, hacct⟩ := getAccount_some hga
  obtain ⟨haddr, hlen20⟩ := wf_lookup hwf hlook
  have hsaddr : sacct.address = sender := by
    rw [hacct]; simpa [toVmAccount] using haddr
  have hlen : sacct.address.length = 20 := by rw [hsaddr]; exact hlen20
  unfold createExternalAccount
  cases hto : txn.toAddr with
  | none => simp [hga]
  | some b =>
    simp only [hga]
    by_cases hperm : hasPermission st sacct.address CreateAccountFlag = true
    · rw [if_neg (show ¬((!hasPermission st sacct.address CreateAccountFlag)
          = true) by simp [hperm])]
      by_cases hnonce : txn.nonce = sacct.sequence
      · rw [if_neg (show ¬(txn.nonce ≠ sacct.sequence) from
          fun hc => hc hnonce)]
        cases hnb : newEvmAddrFromBytes b with
        | none => simp [hnb]
        | some newAcctAddr =>
          simp only [hnb]
          cases hex : getAccount st newAcctAddr with
          | some x => simp [hex]
          | none =>
            simp only [hex]
            have hlkN : lookupEntry st newAcctAddr = none :=
              (getAccount_none_iff st newAcctAddr).1 hex
            have hneNS : newAcctAddr ≠ sender := by
              intro hc
              rw [hc, hlook] at hlkN
              cases hlkN
            have hlenN : newAcctAddr.length = 20 :=
              newEvmAddrFromBytes_length hnb
            have hstep : ∀ newPerms : BasePermissions,
                (ceaTail st sacct newAcctAddr newPerms).result = .ok r →
                (∃ e1, lookupEntry
                    (ceaTail st sacct newAcctAddr newPerms).state sender =
                    some e1 ∧ e1.account.nonce = sacct.sequence + 1) ∧
                (∀ b2 e2, b2 ≠ sender → lookupEntry st b2 = some e2 →
                  ∃ e1, lookupEntry
                      (ceaTail st sacct newAcctAddr newPerms).state b2 =
                      some e1 ∧ e1.account.nonce = e2.account.nonce) := by
              intro newPerms _
              unfold ceaTail
              simp only []
              rw [updateAccount_ok st _ (by simpa using hlen)]
              simp only []
              rw [updateAccount_ok _ _ (by simpa using hlenN)]
              simp only []
              constructor
              · rw [lookup_setEntry_ne _ _ _ _ hneNS, hsaddr,
                  lookup_setEntry_self]
                exact ⟨_, rfl, rfl⟩
              · intro b2 e2 hne hb2
                have hbN : newAcctAddr ≠ b2 := by
                  intro hc
                  rw [hc, hb2] at hlkN
                  cases hlkN
                have hbS : sacct.address ≠ b2 := by
                  rw [hsaddr]
                  exact fun hc => hne hc.symm
                rw [lookup_setEntry_ne _ _ _ _ hbN,
                  lookup_setEntry_ne _ _ _ _ hbS, hb2]
                exact ⟨e2, rfl, rfl⟩
            cases hp : txn.permissions with
            | none =>
              simp only []
              exact hstep _
            | some p =>
              simp only []
              by_cases hroot : hasPermission st sacct.address RootFlag = true
              · rw [if_neg (show ¬((!hasPermission st sacct.address RootFlag)
                    = true) by simp [hroot])]
                simp only []
                exact hstep _
              · have hfalse : hasPermission st sacct.address RootFlag
                    = false := by simpa using hroot
                simp [hfalse]
      · rw [if_pos hnonce]
        simp
    · have hfalse : hasPermission st sacct.address CreateAccountFlag
          = false := by simpa using hperm
      simp [hfalse]

/-- A successful SetPermissions whose target differs from the sender
increments the sender nonce by exactly one and preserves the nonce of
every other stored account (including the receiver, whose permissions
change but whose prefetched sequence is written back). -/
theorem sp_success_nonces (txn : SetPermissionsTxn) (sender : Addr)
    (st : State) (r : HandlerResult) (sacct : Account)
    (hwf : wfState st = true)
    (hga : getAccount st sender = some sacct)
    (hto_ne : txn.toAddr ≠ sender) :
    (setPermissions txn sender st).result = .ok r →
    (∃ e1, lookupEntry (setPermissions txn sender st).state sender =
        some e1 ∧ e1.account.nonce = sacct.sequence + 1) ∧
    (∀ b2 e2, b2 ≠ sender → lookupEntry st b2 = some e2 →
      ∃ e1, lookupEntry (setPermissions txn sender st).state b2 =
        some e1 ∧ e1.account.nonce = e2.account.nonce) := by
  obtain ⟨entry, hlook, hacct⟩ := getAccount_some hga
  obtain ⟨haddr, hlen20⟩ := wf_lookup hwf hlook
  have hsaddr : sacct.address = sender := by
    rw [hacct]; simpa [toVmAccount] using haddr
  have hlen : sacct.address.length = 20 := by rw [hsaddr]; exact hlen20
  unfold setPermissions
  cases hp : txn.permissions with
  | none => simp [hp]
  | some p =>
    simp only [hga]
    by_cases hperm : hasPermission st sacct.address RootFlag = true
    · rw [if_neg (show ¬((!hasPermission st sacct.address RootFlag)
          = true) by simp [hperm])]
      by_cases hnonce : txn.nonce = sacct.sequence
      · rw [if_neg (show ¬(txn.nonce ≠ sacct.sequence) from
          fun hc => hc hnonce)]
        cases hnb : newEvmAddrFromBytes txn.toAddr with
        | none => simp [hnb]
        | some receiver =>
          simp only [hnb]
          have hrs : receiver ≠ sender := by
            rw [newEvmAddrFromBytes_eq hnb]
            exact hto_ne
          cases hrec : getAccount st receiver with
          | some racct =>
            simp only [hrec]
            obtain ⟨entryR, hlookR, hracct⟩ := getAccount_some hrec
            obtain ⟨hraddr0, hrlen⟩ := wf_lookup hwf hlookR
            have hraddr : racct.address = receiver := by
              rw [hracct]; simpa [toVmAccount] using hraddr0
            have hrlenA : racct.address.length = 20 := by
              rw [hraddr]; exact hrlen
            intro _
            rw [updateAccountD_eq st _ (by simpa using hlen)]
            rw [updateAccountD_eq _ _ (by simpa using hrlenA)]
            constructor
            · rw [show ({ racct with
                  permissions := toVmPermissions p } : Account).address =
                  racct.address from rfl, hraddr,
                lookup_setEntry_ne _ _ _ _ hrs, hsaddr, lookup_setEntry_self]
              exact ⟨_, rfl, rfl⟩
            · intro b2 e2 hne hb2
              by_cases hbr : b2 = receiver
              · subst hbr
                rw [hlookR] at hb2
                cases hb2
                rw [show ({ racct with
                    permissions := toVmPermissions p } : Account).address =
                    racct.address from rfl, hraddr, lookup_setEntry_self]
                refine ⟨_, rfl, ?_⟩
                rw [hracct]
                rfl
              · have hbS : sacct.address ≠ b2 := by
                  rw [hsaddr]
                  exact fun hc => hne hc.symm
                have hbR : ({ racct with
                    permissions := toVmPermissions p } : Account).address ≠
                    b2 := by
                  rw [show ({ racct with
                      permissions := toVmPermissions p } : Account).address =
                      racct.address from rfl, hraddr]
                  exact fun hc => hbr hc.symm
                rw [lookup_setEntry_ne _ _ _ _ hbR,
                  lookup_setEntry_ne _ _ _ _ hbS, hb2]
                exact ⟨e2, rfl, rfl⟩
          | none =>
            simp only [hrec]
            by_cases hgl : receiver = globalPermissionsAddress
            · rw [if_pos hgl]
              simp only []
              intro _
              have hrlen20 : receiver.length = 20 :=
                newEvmAddrFromBytes_length hnb
              rw [updateAccountD_eq st _ (by simpa using hlen)]
              rw [updateAccountD_eq _ _ (by simpa using hrlen20)]
              have hlkR : lookupEntry st receiver = none :=
                (getAccount_none_iff st receiver).1 hrec
              constructor
              · rw [lookup_setEntry_ne _ _ _ _ hrs, hsaddr,
                  lookup_setEntry_self]
                exact ⟨_, rfl, rfl⟩
              · intro b2 e2 hne hb2
                have hbR : receiver ≠ b2 := by
                  intro hc
                  rw [hc, hb2] at hlkR
                  cases hlkR
                have hbS : sacct.address ≠ b2 := by
                  rw [hsaddr]
                  exact fun hc => hne hc.symm
                rw [lookup_setEntry_ne _ _ _ _ hbR,
                  lookup_setEntry_ne _ _ _ _ hbS, hb2]
                exact ⟨e2, rfl, rfl⟩
            · rw [if_neg hgl]
              simp
      · rw [if_pos hnonce]
        simp
    · have hfalse : hasPermission st sacct.address RootFlag = false := by
        simpa using hperm
      simp [hfalse]

/-- A successful MessageCall whose target differs from the sender
increments the sender nonce by exactly one and — provided the EVM
preserves nonces — preserves the nonce of every other stored account
(including the receiver, whose prefetched record is written back). -/
theorem mc_success_nonces (vm : VmCall) (txn : MessageCallTxn)
    (sender : Addr) (st : State) (r : HandlerResult) (sacct : Account)
    (hwf : wfState st = true)
    (hpres : VmPreservesNonces vm)
    (hga : getAccount st sender = some sacct)
    (hto_ne : txn.toAddr ≠ sender) :
    (messageCall vm txn sender st).result = .ok r →
    (∃ e1, lookupEntry (messageCall vm txn sender st).state sender =
        some e1 ∧ e1.account.nonce = sacct.sequence + 1) ∧
    (∀ b2 e2, b2 ≠ sender → lookupEntry st b2 = some e2 →
      ∃ e1, lookupEntry (messageCall vm txn sender st).state b2 =
        some e1 ∧ e1.account.nonce = e2.account.nonce) := by
  obtain ⟨entry, hlook, hacct⟩ := getAccount_some hga
  obtain ⟨haddr, hlen20⟩ := wf_lookup hwf hlook
  have hsaddr : sacct.address = sender := by
    rw [hacct]; simpa [toVmAccount] using haddr
  have hlen : sacct.address.length = 20 := by rw [hsaddr]; exact hlen20
  unfold messageCall
  cases hga2 : getAccount st sender with
  | none => rw [hga] at hga2; cases hga2
  | some sacct2 =>
    rw [hga] at hga2
    obtain rfl : sacct = sacct2 := by cases hga2; rfl
    simp only []
    by_cases hperm : hasPermission st sacct.address CallFlag = true
    · rw [if_neg (show ¬((!hasPermission st sacct.address CallFlag)
          = true) by simp [hperm])]
      by_cases hnonce : txn.nonce = sacct.sequence
      · rw [if_neg (show ¬(txn.nonce ≠ sacct.sequence) from
          fun hc => hc hnonce)]
        cases hnb : newEvmAddrFromBytes txn.toAddr with
        | none => simp [hnb]
        | some receiver =>
          simp only [hnb]
          have hrs : receiver ≠ sender := by
            rw [newEvmAddrFromBytes_eq hnb]
            exact hto_ne
          cases hrec : getAccount st receiver with
          | none => simp [hrec]
          | some racct =>
            simp only [hrec]
            obtain ⟨entryR, hlookR, hracct⟩ := getAccount_some hrec
            obtain ⟨hraddr0, hrlen⟩ := wf_lookup hwf hlookR
            have hraddr : racct.address = receiver := by
              rw [hracct]; simpa [toVmAccount] using hraddr0
            have hrlenA : racct.address.length = 20 := by
              rw [hraddr]; exact hrlen
            cases hvm : vm st sacct (some racct) racct.code txn.data
                txn.gasLimit with
            | mk res stVm =>
              cases res with
              | error e1 =>
                simp only [hvm]
                simp
              | ok val =>
                obtain ⟨out, gasUsed⟩ := val
                simp only [hvm]
                intro _
                have hp2 := hpres st sacct (some racct) racct.code txn.data
                  txn.gasLimit
                rw [hvm] at hp2
                rw [updateAccountD_eq stVm _ (by simpa using hlen)]
                rw [updateAccountD_eq _ _ (by simpa using hrlenA)]
                constructor
                · rw [hraddr, lookup_setEntry_ne _ _ _ _ hrs, hsaddr,
                    lookup_setEntry_self]
                  exact ⟨_, rfl, rfl⟩
                · intro b2 e2 hne hb2
                  by_cases hbr : b2 = receiver
                  · subst hbr
                    rw [hlookR] at hb2
                    cases hb2
                    rw [hraddr, lookup_setEntry_self]
                    refine ⟨_, rfl, ?_⟩
                    rw [hracct]
                    rfl
                  · have hbS : sacct.address ≠ b2 := by
                      rw [hsaddr]
                      exact fun hc => hne hc.symm
                    have hbR : racct.address ≠ b2 := by
                      rw [hraddr]
                      exact fun hc => hbr hc.symm
                    obtain ⟨e1, he1, hn1⟩ := hp2 b2 e2 hb2
                    rw [lookup_setEntry_ne _ _ _ _ hbR,
                      lookup_setEntry_ne _ _ _ _ hbS, he1]
                    exact ⟨e1, rfl, hn1⟩
      · rw [if_pos hnonce]
        simp
    · have hfalse : hasPermission st sacct.address CallFlag = false := by
        simpa using hperm
      simp [hfalse]

/-- A successful CreateContractAccount increments the stored sender nonce
by exactly one (the entry at the sender address is rewritten twice: first
with the incremented prefetched sender, then with the refetched copy whose
sequence is also the pre-state nonce plus one) and — provided the EVM
preserves nonces — preserves the nonce of every other stored account. -/
theorem cca_success_nonces (vm : VmCall) (txn : CreateContractAccountTxn)
    (sender : Addr) (st : State) (r : HandlerResult) (sacct : Account)
    (hwf : wfState st = true)
    (hpres : VmPreservesNonces vm)
    (hga : getAccount st sender = some sacct) :
    (createContractAccount vm txn sender st).result = .ok r →
    (∃ e1, lookupEntry (createContractAccount vm txn sender st).state
        sender = some e1 ∧ e1.account.nonce = sacct.sequence + 1) ∧
    (∀ b2 e2, b2 ≠ sender → lookupEntry st b2 = some e2 →
      ∃ e1, lookupEntry (createContractAccount vm txn sender st).state b2 =
        some e1 ∧ e1.account.nonce = e2.account.nonce) := by
  obtain ⟨entry, hlook, hacct⟩ := getAccount_some hga
  obtain ⟨haddr, hlen20⟩ := wf_lookup hwf hlook
  have hsaddr : sacct.address = sender := by
    rw [hacct]; simpa [toVmAccount] using haddr
  have hlen : sacct.address.length = 20 := by rw [hsaddr]; exact hlen20
  unfold createContractAccount
  cases hga2 : getAccount st sender with
  | none => rw [hga] at hga2; cases hga2
  | some sacct2 =>
    rw [hga] at hga2
    obtain rfl : sacct = sacct2 := by cases hga2; rfl
    simp only []
    by_cases hperm : hasPermission st sacct.address CreateContractFlag = true
    · rw [if_neg (show ¬((!hasPermission st sacct.address CreateContractFlag)
          = true) by simp [hperm])]
      by_cases hnonce : txn.nonce = sacct.sequence
      · rw [if_neg (show ¬(txn.nonce ≠ sacct.sequence) from
          fun hc => hc hnonce)]
        have hnb : newEvmAddrFromBytes sacct.address =
            some sacct.address := by
          simp [newEvmAddrFromBytes, hlen]
        have hstep : ∀ newPerms : BasePermissions,
            (ccaTail vm txn st sacct newPerms).result = .ok r →
            (∃ e1, lookupEntry (ccaTail vm txn st sacct newPerms).state
                sender = some e1 ∧ e1.account.nonce = sacct.sequence + 1) ∧
            (∀ b2 e2, b2 ≠ sender → lookupEntry st b2 = some e2 →
              ∃ e1, lookupEntry (ccaTail vm txn st sacct newPerms).state
                  b2 = some e1 ∧ e1.account.nonce = e2.account.nonce) := by
          intro newPerms
          unfold ccaTail
          rw [hnb]
          cases hlk : lookupEntry st
              (derive sacct.address sacct.sequence) with
          | some x => simp [newEntry, hlk]
          | none =>
            simp only [newEntry, hlk]
            have hne2 : derive sacct.address sacct.sequence ≠
                sacct.address := by
              intro hc
              rw [hc, hsaddr, hlook] at hlk
              cases hlk
            have hga1 : getAccount
                (setEntry st (derive sacct.address sacct.sequence)
                  (freshEntry (derive sacct.address sacct.sequence)))
                sacct.address = some sacct := by
              unfold getAccount
              rw [lookup_setEntry_ne _ _ _ _ hne2, hsaddr, hlook]
              simp [hacct]
            simp only [hga1]
            cases hvm : vm
                (setEntry st (derive sacct.address sacct.sequence)
                  (freshEntry (derive sacct.address sacct.sequence)))
                sacct none txn.init [] txn.gasLimit with
            | mk res stVm =>
              cases res with
              | error e1 =>
                simp only [hvm]
                simp
              | ok val =>
                obtain ⟨out, gasUsed⟩ := val
                simp only [hvm]
                have hp2 := hpres
                  (setEntry st (derive sacct.address sacct.sequence)
                    (freshEntry (derive sacct.address sacct.sequence)))
                  sacct none txn.init [] txn.gasLimit
                rw [hvm] at hp2
                rw [updateAccount_ok stVm _ (by simpa using hlen)]
                simp only []
                rw [updateAccount_ok _ _ (by simpa using hlen)]
                simp only []
                intro _
                constructor
                · rw [hsaddr, lookup_setEntry_self]
                  exact ⟨_, rfl, rfl⟩
                · intro b2 e2 hne hb2
                  have hbN : derive sacct.address sacct.sequence ≠ b2 := by
                    intro hc
                    rw [hc, hb2] at hlk
                    cases hlk
                  have hbS : sacct.address ≠ b2 := by
                    rw [hsaddr]
                    exact fun hc => hne hc.symm
                  obtain ⟨e1, he1, hn1⟩ := hp2 b2 e2 (by
                    rw [lookup_setEntry_ne _ _ _ _ hbN]
                    exact hb2)
                  rw [lookup_setEntry_ne _ _ _ _ hbS,
                    lookup_setEntry_ne _ _ _ _ hbS, he1]
                  exact ⟨e1, rfl, hn1⟩
        cases hp : txn.permissions with
        | none =>
          simp only []
          exact hstep _
        | some p =>
          simp only []
          by_cases hroot : hasPermission st sacct.address RootFlag = true
          · rw [if_neg (show ¬((!hasPermission st sacct.address RootFlag)
                = true) by simp [hroot])]
            simp only []
            exact hstep _
          · have hfalse : hasPermission st sacct.address RootFlag
                = false := by simpa using hroot
            simp [hfalse]
      · rw [if_pos hnonce]
        simp
    · have hfalse : hasPermission st sacct.address CreateContractFlag
          = false := by simpa using hperm
      simp [hfalse]

/-- The identity virtual machine preserves every stored nonce. -/
theorem idVm_preservesNonces : VmPreservesNonces idVm :=
  fun _ _ _ _ _ _ _ e h => ⟨e, h, rfl⟩

/-- An entry for a second account at `addrB`. -/
def entryB : EvmEntry :=
  { account :=
      { address := addrB, balance := 0, code := [], nonce := 5
        permissions := { perms := 0, setBit := 0 } }
    storage := [] }

/-- A two-account context. -/
def stAB : State := [(addrA, entryA), (addrB, entryB)]

/-- C3 counterexample: a successful SetPermissions whose target is the
sender itself leaves the sender's stored nonce unchanged (0, not 1): the
receiver record, prefetched before the increment, is written back last and
restores the old sequence.  This contradicts the claim that every
successful transaction with an existing sender bumps its nonce by one. -/
theorem selfTargetKeepsNonce :
    isOkResult (setPermissions
        { toAddr := addrA, permissions := some { perms := 1, setBit := 1 }
          nonce := 0 } addrA stA).result = true ∧
      ((lookupEntry (setPermissions
          { toAddr := addrA, permissions := some { perms := 1, setBit := 1 }
            nonce := 0 } addrA stA).state addrA).map
        (fun e => e.account.nonce)) = some 0 := by decide

/-- C3 (amended): on a well-formed context, every successful transaction
whose sender account already existed stores the sender's pre-state nonce
plus exactly one — except that MessageCall and SetPermissions must not
target the sender itself (a self-targeted call writes the stale receiver
copy last and restores the old nonce) — and no other pre-existing
account's nonce changes, provided the EVM callback itself preserves
stored nonces (the spec's exception for contract sub-creations). -/
theorem nonceIncrementOnSuccess :
    (∀ (txn : CreateExternalAccountTxn) (sender : Addr) (st : State)
        (r : HandlerResult) (sacct : Account),
      wfState st = true →
      getAccount st sender = some sacct →
      (createExternalAccount txn sender st).result = .ok r →
      (∃ e1, lookupEntry (createExternalAccount txn sender st).state
          sender = some e1 ∧ e1.account.nonce = sacct.sequence + 1) ∧
      (∀ b2 e2, b2 ≠ sender → lookupEntry st b2 = some e2 →
        ∃ e1, lookupEntry (createExternalAccount txn sender st).state b2 =
          some e1 ∧ e1.account.nonce = e2.account.nonce)) ∧
    (∀ (vm : VmCall) (txn : CreateContractAccountTxn) (sender : Addr)
        (st : State) (r : HandlerResult) (sacct : Account),
      wfState st = true →
      VmPreservesNonces vm →
      getAccount st sender = some sacct →
      (createContractAccount vm txn sender st).result = .ok r →
      (∃ e1, lookupEntry (createContractAccount vm txn sender st).state
          sender = some e1 ∧ e1.account.nonce = sacct.sequence + 1) ∧
      (∀ b2 e2, b2 ≠ sender → lookupEntry st b2 = some e2 →
        ∃ e1, lookupEntry (createContractAccount vm txn sender st).state
            b2 = some e1 ∧ e1.account.nonce = e2.account.nonce)) ∧
    (∀ (vm : VmCall) (txn : MessageCallTxn) (sender : Addr) (st : State)
        (r : HandlerResult) (sacct : Account),
      wfState st = true →
      VmPreservesNonces vm →
      getAccount st sender = some sacct →
      txn.toAddr ≠ sender →
      (messageCall vm txn sender st).result = .ok r →
      (∃ e1, lookupEntry (messageCall vm txn sender st).state sender =
          some e1 ∧ e1.account.nonce = sacct.sequence + 1) ∧
      (∀ b2 e2, b2 ≠ sender → lookupEntry st b2 = some e2 →
        ∃ e1, lookupEntry (messageCall vm txn sender st).state b2 =
          some e1 ∧ e1.account.nonce = e2.account.nonce)) ∧
    (∀ (txn : SetPermissionsTxn) (sender : Addr) (st : State)
        (r : HandlerResult) (sacct : Account),
      wfState st = true →
      getAccount st sender = some sacct →
      txn.toAddr ≠ sender →
      (setPermissions txn sender st).result = .ok r →
      (∃ e1, lookupEntry (setPermissions txn sender st).state sender =
          some e1 ∧ e1.account.nonce = sacct.sequence + 1) ∧
      (∀ b2 e2, b2 ≠ sender → lookupEntry st b2 = some e2 →
        ∃ e1, lookupEntry (setPermissions txn sender st).state b2 =
          some e1 ∧ e1.account.nonce = e2.account.nonce)) :=
  ⟨fun txn sender st r sacct hwf hga =>
      cea_success_nonces txn sender st r sacct hwf hga,
    fun vm txn sender st r sacct hwf hpres hga =>
      cca_success_nonces vm txn sender st r sacct hwf hpres hga,
    fun vm txn sender st r sacct hwf hpres hga hto =>
      mc_success_nonces vm txn sender st r sacct hwf hpres hga hto,
    fun txn sender st r sacct hwf hga hto =>
      sp_success_nonces txn sender st r sacct hwf hga hto⟩

/-- Witness for the amended C3 at concrete successful transactions of all
four kinds. -/
theorem nonceIncrementOnSuccess_witness :
    ((∃ e1, lookupEntry (createExternalAccount
        { toAddr := some addrB, nonce := 0, permissions := none }
        addrA stA).state addrA = some e1 ∧
        e1.account.nonce = (toVmAccount entryA.account).sequence + 1) ∧
      (∀ b2 e2, b2 ≠ addrA → lookupEntry stA b2 = some e2 →
        ∃ e1, lookupEntry (createExternalAccount
            { toAddr := some addrB, nonce := 0, permissions := none }
            addrA stA).state b2 = some e1 ∧
          e1.account.nonce = e2.account.nonce)) ∧
    ((∃ e1, lookupEntry (createContractAccount idVm txnCC addrA stA).state
        addrA = some e1 ∧
        e1.account.nonce = (toVmAccount entryA.account).sequence + 1) ∧
      (∀ b2 e2, b2 ≠ addrA → lookupEntry stA b2 = some e2 →
        ∃ e1, lookupEntry (createContractAccount idVm txnCC addrA stA).state
            b2 = some e1 ∧ e1.account.nonce = e2.account.nonce)) ∧
    ((∃ e1, lookupEntry (messageCall idVm
        { toAddr := addrB, data := [], gasLimit := 100, nonce := 0 }
        addrA stAB).state addrA = some e1 ∧
        e1.account.nonce = (toVmAccount entryA.account).sequence + 1) ∧
      (∀ b2 e2, b2 ≠ addrA → lookupEntry stAB b2 = some e2 →
        ∃ e1, lookupEntry (messageCall idVm
            { toAddr := addrB, data := [], gasLimit := 100, nonce := 0 }
            addrA stAB).state b2 = some e1 ∧
          e1.account.nonce = e2.account.nonce)) ∧
    ((∃ e1, lookupEntry (setPermissions
        { toAddr := addrB, permissions := some { perms := 1, setBit := 1 }
          nonce := 0 } addrA stAB).state addrA = some e1 ∧
        e1.account.nonce = (toVmAccount entryA.account).sequence + 1) ∧
      (∀ b2 e2, b2 ≠ addrA → lookupEntry stAB b2 = some e2 →
        ∃ e1, lookupEntry (setPermissions
            { toAddr := addrB, permissions := some { perms := 1, setBit := 1 }
              nonce := 0 } addrA stAB).state b2 = some e1 ∧
          e1.account.nonce = e2.account.nonce)) :=
  ⟨nonceIncrementOnSuccess.1 _ addrA stA
      { newAccount := some
          { address := addrB, balance := 0, code := [], sequence := 1
            permissions :=
              setFlagFalse (toVmAccount entryA.account).permissions
                RootFlag } }
      (toVmAccount entryA.account) (by decide) (by decide) (by decide),
    nonceIncrementOnSuccess.2.1 idVm txnCC addrA stA
      { gasUsed := 0, returnValue := []
        newAccount := some
          { address := addrA, balance := 0, code := [], sequence := 1
            permissions :=
              setFlagFalse (toVmAccount entryA.account).permissions
                RootFlag } }
      (toVmAccount entryA.account) (by decide) idVm_preservesNonces
      (by decide) (by decide),
    nonceIncrementOnSuccess.2.2.1 idVm _ addrA stAB
      { gasUsed := 0, returnValue := [] } (toVmAccount entryA.account)
      (by decide) idVm_preservesNonces (by decide) (by decide) (by decide),
    nonceIncrementOnSuccess.2.2.2 _ addrA stAB {}
      (toVmAccount entryA.account) (by decide) (by decide) (by decide)
      (by decide)⟩

/-! Claims C1 and C6: the stale refetch in CreateContractAccount. -/

/-- A virtual machine that writes nothing and returns the byte 0x60 with
gas used 7, standing for an init code that returns `0x60`. -/
def vmRet : VmCall := fun s _ _ _ _ _ => (.ok ([0x60], 7), s)

/-- C1: evaluation of CreateContractAccount at a concrete input exhibiting
the stale refetch (source line 284 refetches `senderAcct.Address`, not the
derived address): the transaction succeeds and a new entry exists at the
address derived from the sender address and the pre-increment nonce, with
empty storage — but that entry keeps empty code instead of the EVM's
return value `[0x60]`, which is instead written into the sender's own
entry as its code. -/
theorem createContract_staleRefetch :
    isOkResult (createContractAccount vmRet txnCC addrA stA).result = true ∧
      lookupEntry (createContractAccount vmRet txnCC addrA stA).state
          (derive addrA 0) = some (freshEntry (derive addrA 0)) ∧
      (freshEntry (derive addrA 0)).account.code ≠ [0x60] ∧
      ((lookupEntry (createContractAccount vmRet txnCC addrA stA).state
          addrA).map (fun e => e.account.code)) = some [0x60] := by decide

/-- A contract-creation transaction carrying an explicit permissions
field. -/
def txnCCP : CreateContractAccountTxn :=
  { init := [], gasLimit := 1000, nonce := 0
    permissions := some { perms := CallFlag, setBit := CallFlag } }

/-- C6: evaluation of CreateContractAccount with an explicit permissions
field and a Root-holding sender: the transaction succeeds, but because of
the stale refetch the supplied mask pair is stored on the sender's own
entry, while the new account at the derived address keeps the zero
permission pair — not the supplied mask the claim requires. -/
theorem createContract_permsMisplaced :
    isOkResult (createContractAccount vmRet txnCCP addrA stA).result =
        true ∧
      ((lookupEntry (createContractAccount vmRet txnCCP addrA stA).state
          (derive addrA 0)).map (fun e => e.account.permissions)) =
        some { perms := 0, setBit := 0 } ∧
      ({ perms := 0, setBit := 0 } : EvmPermissions) ≠
        { perms := CallFlag, setBit := CallFlag } ∧
      ((lookupEntry (createContractAccount vmRet txnCCP addrA stA).state
          addrA).map (fun e => e.account.permissions)) =
        some { perms := CallFlag, setBit := CallFlag } := by decide

end Seth
